import Mathlib

/-!
Verification development for the crash-mcp step engine (`src/server.ts`).

The engine is shallowly embedded as pure functions over an explicit
`EngineState`.  JavaScript object aliasing matters for the behaviour under
study (revision marks mutate the step object shared between `history.steps`,
`stepIndex` and branch step lists; the active history is a pointer into the
session registry), so steps and histories live in explicit heaps addressed
by allocation index, and collections hold those indices, exactly as the JS
runtime holds references.  JS `Map`/`Set` are modelled as insertion-ordered
association lists / lists, which matches their iteration semantics.
JS numbers are modelled as `ℚ` (every value reaching the engine's numeric
code paths has passed `validateRequiredFields`, so NaN/Infinity never reach
them; the raw-input layer has explicit NaN and non-number constructors).
Clock reads (`Date.now`) within one call are a single parameter `now`.
-/

namespace Crash

/-- A JavaScript value as it can appear in one of the raw input fields that
`validateRequiredFields` / `validateConfidence` inspect with `typeof`.
`jobjAct` is the object form of `next_action` (`{tool?, action}`); `jnan`
is the number NaN (`typeof` is still "number"). -/
inductive JSVal where
  | jnum (q : ℚ)
  | jnan
  | jstr (s : String)
  | jobjAct (tool : Option String) (action : JSVal)
  | jnull
  | jundef
  | jbool (b : Bool)
deriving DecidableEq, Repr, Inhabited

/-- JavaScript `typeof`. -/
def JSVal.typeofStr : JSVal → String
  | .jnum _ => "number"
  | .jnan => "number"
  | .jstr _ => "string"
  | .jobjAct _ _ => "object"
  | .jnull => "object"
  | .jundef => "undefined"
  | .jbool _ => "boolean"

/-- Numeric read of a field.  Only reached after field validation has
established `.jnum`; the default is never observable. -/
def JSVal.asNum : JSVal → ℚ
  | .jnum q => q
  | _ => 0

/-- String read of a field.  Only reached after field validation has
established `.jstr`; the default is never observable. -/
def JSVal.asStr : JSVal → String
  | .jstr s => s
  | _ => ""

/-- `src/types.ts` `CrashStep`.  The eight required fields and `confidence`
keep their raw (`unknown`-typed at the call boundary) form since the
validator inspects their runtime type; the remaining optional fields are
only ever read through their declared type. -/
structure CrashStep where
  step_number : JSVal
  estimated_total : JSVal
  purpose : JSVal
  context : JSVal
  thought : JSVal
  outcome : JSVal
  rationale : JSVal
  next_action : JSVal
  confidence : JSVal := .jundef
  uncertainty_notes : Option String := none
  revises_step : Option ℚ := none
  revision_reason : Option String := none
  branch_from : Option ℚ := none
  branch_id : Option String := none
  branch_name : Option String := none
  tools_used : Option (List String) := none
  dependencies : Option (List ℚ) := none
  session_id : Option String := none
  is_final_step : Option Bool := none
  timestamp : Option Nat := none
  duration_ms : Option Nat := none
  revised_by : Option ℚ := none
deriving DecidableEq, Repr, Inhabited

/-- JS truthiness of an optional number field (`undefined` and `0` are falsy). -/
def truthyNum : Option ℚ → Bool
  | none => false
  | some q => decide (q ≠ 0)

/-- JS truthiness of an optional string field (`undefined` and `""` are falsy). -/
def truthyStr : Option String → Bool
  | none => false
  | some s => decide (s ≠ "")

/-- `v || d` for an optional string field. -/
def orElseStr (v : Option String) (d : String) : String :=
  match v with
  | none => d
  | some s => if s = "" then d else s

/-- JS `String.prototype.trim` (modelled character-structurally so that it
evaluates inside the kernel). -/
def jsTrim (s : String) : String :=
  String.mk (((s.data.dropWhile Char.isWhitespace).reverse.dropWhile
    Char.isWhitespace).reverse)

/-- JS `String.prototype.toLowerCase`. -/
def jsToLower (s : String) : String :=
  String.mk (s.data.map Char.toLower)

/-- JS `String.prototype.startsWith`. -/
def jsStartsWith (s pat : String) : Bool :=
  pat.data.isPrefixOf s.data

/-- Whether `pat` occurs as a contiguous run inside `l`. -/
def containsSub : List Char → List Char → Bool
  | [], pat => pat.isEmpty
  | c :: rest, pat => pat.isPrefixOf (c :: rest) || containsSub rest pat

/-- JS `String.prototype.includes`. -/
def strIncludes (s pat : String) : Bool :=
  containsSub s.data pat.data

/-- `src/constants.ts` `VALID_PREFIXES`. -/
def VALID_PREFIXES : List String :=
  ["OK, I ", "But ", "Wait ", "Therefore ", "I see the issue now. ", "I have completed "]

/-- `src/constants.ts` `VALID_PURPOSES`. -/
def VALID_PURPOSES : List String :=
  ["analysis", "action", "reflection", "decision", "summary",
   "validation", "exploration", "hypothesis", "correction", "planning"]

/-- `src/constants.ts` `COMPLETION_PHRASES`. -/
def COMPLETION_PHRASES : List String :=
  ["I have completed", "Task completed", "Solution found"]

/-- `src/constants.ts` `SESSION_CLEANUP_INTERVAL`. -/
def SESSION_CLEANUP_INTERVAL : Nat := 10

/-- `src/config.ts` `CrashConfig.validation`. -/
structure ValidationConfig where
  requireThoughtPrefix : Bool
  requireRationalePrefix : Bool
  allowCustomPurpose : Bool
  strictMode : Bool
deriving DecidableEq, Repr

/-- `src/config.ts` `CrashConfig.features` (the display-only and unused flags
`enableConfidence` / `enableStructuredActions` are never read by the engine
and are omitted). -/
structure FeaturesConfig where
  enableRevisions : Bool
  enableBranching : Bool
  enableSessions : Bool
deriving DecidableEq, Repr

/-- `src/config.ts` `CrashConfig.system`. -/
structure SystemConfig where
  maxHistorySize : Nat
  maxBranchDepth : Nat
  sessionTimeout : Nat
deriving DecidableEq, Repr

/-- `src/config.ts` `CrashConfig` (display settings only affect the
out-of-scope formatter and are omitted). -/
structure CrashConfig where
  validation : ValidationConfig
  features : FeaturesConfig
  system : SystemConfig
deriving DecidableEq, Repr

/-- `src/types.ts` `Branch`.  `steps` holds heap indices of the step objects
(JS holds references). -/
structure Branch where
  id : String
  name : String
  from_step : ℚ
  steps : List Nat
  status : String
  created_at : Nat
  depth : Nat
deriving DecidableEq, Repr, Inhabited

/-- `CrashHistory.metadata`.  Counters always exist in practice
(`createNewHistory` initialises them), so the `?.` guards of the source are
always taken. -/
structure Metadata where
  total_duration_ms : Nat
  revisions_count : Nat
  branches_created : Nat
  tools_used : List String
deriving DecidableEq, Repr, Inhabited

/-- `src/types.ts` `CrashHistory`.  `steps` holds heap indices.  The
`branches` array field set by `createNewHistory` is never read or written
by the engine afterwards (only `exportHistory` derives a fresh one), so it
is omitted. -/
structure CrashHistory where
  steps : List Nat
  completed : Bool
  created_at : Nat
  updated_at : Nat
  metadata : Metadata
deriving DecidableEq, Repr, Inhabited

/-- `SessionEntry`: a reference to a history in the history heap plus the
last-accessed clock value. -/
structure SessionEntry where
  histId : Nat
  lastAccessed : Nat
deriving DecidableEq, Repr, Inhabited

/-- Insertion-ordered association list lookup (JS `Map.get`). -/
def mget {κ α : Type} [DecidableEq κ] : List (κ × α) → κ → Option α
  | [], _ => none
  | (k', v) :: rest, k => if k' = k then some v else mget rest k

/-- Insertion-ordered association list update (JS `Map.set`): replaces in
place, appends when the key is new. -/
def mset {κ α : Type} [DecidableEq κ] : List (κ × α) → κ → α → List (κ × α)
  | [], k, v => [(k, v)]
  | (k', v') :: rest, k, v =>
    if k' = k then (k, v) :: rest else (k', v') :: mset rest k v

/-- Insertion-ordered set insert (JS `Set.add`). -/
def sInsert {α : Type} [DecidableEq α] (s : List α) (a : α) : List α :=
  if a ∈ s then s else s ++ [a]

/-- `[...new Set(l)]`: deduplicate keeping first occurrences in order. -/
def dedupFirst {α : Type} [DecidableEq α] (l : List α) : List α :=
  l.foldl sInsert []

/-- Read a heap cell (a JS reference dereference; indices handed out by the
engine are always in range). -/
def heapGet {α : Type} [Inhabited α] (heap : List α) (i : Nat) : α :=
  heap.getD i default

/-- Mutate a heap cell in place. -/
def heapSet {α : Type} [Inhabited α] (heap : List α) (i : Nat) (f : α → α) : List α :=
  heap.set i (f (heapGet heap i))

/-- The full mutable state of `CrashServer`. -/
structure EngineState where
  heap : List CrashStep
  histHeap : List CrashHistory
  activeHist : Nat
  startTime : Nat
  branches : List (String × Branch)
  sessions : List (String × SessionEntry)
  stepIndex : List (ℚ × Nat)
  stepNumbers : List ℚ
  toolsUsedSet : List String
  stepsSinceCleanup : Nat
  branchDepthCache : List (ℚ × Nat)
deriving DecidableEq, Repr, Inhabited

/-- `createNewHistory`. -/
def createNewHistory (now : Nat) : CrashHistory :=
  { steps := [], completed := false, created_at := now, updated_at := now,
    metadata := { total_duration_ms := 0, revisions_count := 0,
                  branches_created := 0, tools_used := [] } }

/-- The constructor's state: a fresh default history, everything else empty. -/
def initState (now : Nat) : EngineState :=
  { heap := [], histHeap := [createNewHistory now], activeHist := 0,
    startTime := now, branches := [], sessions := [], stepIndex := [],
    stepNumbers := [], toolsUsedSet := [], stepsSinceCleanup := 0,
    branchDepthCache := [] }

/-- `this.history` (dereference the active-history pointer). -/
def getHist (s : EngineState) : CrashHistory :=
  heapGet s.histHeap s.activeHist

/-- Mutate the active history through the pointer. -/
def setHist (s : EngineState) (f : CrashHistory → CrashHistory) : EngineState :=
  { s with histHeap := heapSet s.histHeap s.activeHist f }

/-- `validateThoughtPrefix`. -/
def validateThoughtPrefix (cfg : CrashConfig) (thought : String) : Bool :=
  if ¬ cfg.validation.requireThoughtPrefix then true
  else VALID_PREFIXES.any (fun p => jsStartsWith thought p)

/-- `validateRationale`. -/
def validateRationale (cfg : CrashConfig) (rationale : String) : Bool :=
  if ¬ cfg.validation.requireRationalePrefix then true
  else jsStartsWith rationale "To "

/-- `validatePurpose` (the `VALID_PURPOSES` entries are already lowercase). -/
def validatePurpose (cfg : CrashConfig) (purpose : String) : Bool :=
  if cfg.validation.allowCustomPurpose then true
  else decide (jsToLower purpose ∈ VALID_PURPOSES)

/-- `extractToolsUsed`: explicit `tools_used` plus a structured action's
`tool` (truthy check), deduplicated via `[...new Set(tools)]`. -/
def extractToolsUsed (step : CrashStep) : List String :=
  let fromField : List String :=
    match step.tools_used with
    | some ts => ts
    | none => []
  let fromAction : List String :=
    match step.next_action with
    | .jobjAct (some t) _ => if t = "" then [] else [t]
    | _ => []
  dedupFirst (fromField ++ fromAction)

/-- `isNonEmptyString`. -/
def isNonEmptyString (v : JSVal) : Bool :=
  match v with
  | .jstr s => decide (0 < (jsTrim s).length)
  | _ => false

/-- The positive-integer check of `validateRequiredFields`
(`typeof v === 'number' && v >= 1 && Number.isInteger(v)`); NaN fails the
`Number.isInteger` test. -/
def isPosIntJS (v : JSVal) : Bool :=
  match v with
  | .jnum q => decide (1 ≤ q) && decide (q.den = 1)
  | _ => false

/-- Result of `validateRequiredFields`. -/
structure FieldResult where
  valid : Bool
  missing : List String
deriving DecidableEq, Repr

/-- `validateRequiredFields`: collects a label for every invalid field, in
source order. -/
def validateRequiredFields (step : CrashStep) : FieldResult :=
  let missing : List String :=
    (if isPosIntJS step.step_number then []
     else ["step_number (must be positive integer >= 1)"])
    ++ (if isPosIntJS step.estimated_total then []
        else ["estimated_total (must be positive integer >= 1)"])
    ++ (if isNonEmptyString step.purpose then [] else ["purpose"])
    ++ (if isNonEmptyString step.context then [] else ["context"])
    ++ (if isNonEmptyString step.thought then [] else ["thought"])
    ++ (if isNonEmptyString step.outcome then [] else ["outcome"])
    ++ (if isNonEmptyString step.rationale then [] else ["rationale"])
    ++ (match step.next_action with
        | .jstr s => if isNonEmptyString (.jstr s) then [] else ["next_action"]
        | .jobjAct _ a => if isNonEmptyString a then [] else ["next_action.action"]
        | _ => ["next_action"])
  { valid := missing.isEmpty, missing := missing }

/-- Result of `validateConfidence`. -/
structure ConfResult where
  valid : Bool
  error : Option String
deriving DecidableEq, Repr

/-- `validateConfidence` (`CONFIDENCE_MIN = 0`, `CONFIDENCE_MAX = 1`). -/
def validateConfidence (step : CrashStep) : ConfResult :=
  match step.confidence with
  | .jundef => { valid := true, error := none }
  | .jnum q =>
    if q < 0 ∨ 1 < q then
      { valid := false,
        error := some ("Confidence " ++ toString q ++ " out of bounds [0, 1]") }
    else { valid := true, error := none }
  | .jnan =>
    { valid := false, error := some "Confidence must be a number, got number" }
  | v =>
    { valid := false,
      error := some ("Confidence must be a number, got " ++ v.typeofStr) }

/-- Insertion into a sorted list of step numbers. -/
def insertSorted (q : ℚ) : List ℚ → List ℚ
  | [] => [q]
  | x :: xs => if q ≤ x then q :: x :: xs else x :: insertSorted q xs

/-- `Array.from(set).sort((a, b) => a - b)`. -/
def sortRats (l : List ℚ) : List ℚ :=
  l.foldr insertSorted []

/-- `... .join(', ') || 'none'` over the sorted known step numbers. -/
def availableStr (l : List ℚ) : String :=
  let joined := ", ".intercalate ((sortRats l).map toString)
  if joined = "" then "none" else joined

/-- `cleanupExpiredSessions` (batched: the sweep runs only every
`SESSION_CLEANUP_INTERVAL` calls unless forced). -/
def cleanupExpiredSessions (cfg : CrashConfig) (s : EngineState) (force : Bool)
    (now : Nat) : EngineState :=
  if ¬ cfg.features.enableSessions then s
  else
    let s := { s with stepsSinceCleanup := s.stepsSinceCleanup + 1 }
    if ¬ force ∧ s.stepsSinceCleanup < SESSION_CLEANUP_INTERVAL then s
    else
      let timeoutMs := cfg.system.sessionTimeout * 60 * 1000
      { s with stepsSinceCleanup := 0,
               sessions := s.sessions.filter
                 (fun e => ¬ (timeoutMs < now - e.2.lastAccessed)) }

/-- Result of `handleRevision`. -/
structure RevResult where
  valid : Bool
  error : Option String
deriving DecidableEq, Repr

/-- `handleRevision`: future/self revision is fatal; otherwise the original
step (looked up through `stepIndex`, which aliases the heap object) is
marked `revised_by` when found, and `revisions_count` is incremented
whether or not it was found. -/
def handleRevision (cfg : CrashConfig) (s : EngineState) (step : CrashStep) :
    EngineState × RevResult :=
  if ¬ truthyNum step.revises_step ∨ ¬ cfg.features.enableRevisions then
    (s, { valid := true, error := none })
  else
    let r := step.revises_step.getD 0
    let n := step.step_number.asNum
    if n ≤ r then
      (s, { valid := false,
            error := some ("Cannot revise step " ++ toString r ++ " from step "
              ++ toString n ++ ": can only revise earlier steps") })
    else
      let s :=
        match mget s.stepIndex r with
        | some id =>
          { s with heap := heapSet s.heap id (fun orig => { orig with revised_by := some n }) }
        | none => s
      let s := setHist s (fun h =>
        { h with metadata := { h.metadata with revisions_count := h.metadata.revisions_count + 1 } })
      (s, { valid := true, error := none })

/-- The branch scan inside `calculateBranchDepth`: the first registered
branch (in insertion order) whose step list contains a step with the given
number. -/
def findContainingBranch (bs : List (String × Branch)) (heap : List CrashStep)
    (q : ℚ) : Option Branch :=
  match bs with
  | [] => none
  | (_, br) :: rest =>
    if br.steps.any (fun id => decide ((heapGet heap id).step_number.asNum = q)) then
      some br
    else findContainingBranch rest heap q

/-- `calculateBranchDepth`: memoised; depth 1 when the step is only in the
main history, otherwise containing branch's depth + 1. -/
def calculateBranchDepth (s : EngineState) (stepNumber : ℚ) : EngineState × Nat :=
  match mget s.branchDepthCache stepNumber with
  | some d => (s, d)
  | none =>
    match findContainingBranch s.branches s.heap stepNumber with
    | some br =>
      let depth := br.depth + 1
      ({ s with branchDepthCache := mset s.branchDepthCache stepNumber depth }, depth)
    | none =>
      ({ s with branchDepthCache := mset s.branchDepthCache stepNumber 1 }, 1)

/-- Result of `handleBranching`. -/
structure BranchResult where
  success : Bool
  error : Option String
deriving DecidableEq, Repr

/-- The tail of `handleBranching` shared by the fresh-branch and
existing-branch paths: tag the step's `branch_id` and push the step (by
reference) onto the branch's step list. -/
def addStepToBranch (s : EngineState) (stepId : Nat) (branchId : String) :
    EngineState × BranchResult :=
  match mget s.branches branchId with
  | some br =>
    let s := { s with heap := heapSet s.heap stepId (fun st => { st with branch_id := some branchId }) }
    ({ s with branches := mset s.branches branchId { br with steps := br.steps ++ [stepId] } },
     { success := true, error := none })
  | none => (s, { success := true, error := none })

/-- `handleBranching`.  `stepId` is the heap reference of the step being
processed (its `branch_id` field is mutated in place). -/
def handleBranching (cfg : CrashConfig) (s : EngineState) (stepId : Nat)
    (now : Nat) : EngineState × BranchResult :=
  let step := heapGet s.heap stepId
  if ¬ truthyNum step.branch_from ∨ ¬ cfg.features.enableBranching then
    (s, { success := true, error := none })
  else
    let f := step.branch_from.getD 0
    if f ∉ s.stepNumbers then
      (s, { success := false,
            error := some ("Cannot branch from step " ++ toString f
              ++ ": step does not exist. Available steps: " ++ availableStr s.stepNumbers) })
    else
      let branchId := orElseStr step.branch_id ("branch-" ++ toString now)
      let branchName := orElseStr step.branch_name
        ("Alternative " ++ toString (s.branches.length + 1))
      match mget s.branches branchId with
      | none =>
        let sd := calculateBranchDepth s f
        let s := sd.1
        let depth := sd.2
        if cfg.system.maxBranchDepth < depth then
          (s, { success := false,
                error := some ("Branch depth " ++ toString depth ++ " exceeds maximum "
                  ++ toString cfg.system.maxBranchDepth ++ ". Max allowed: "
                  ++ toString cfg.system.maxBranchDepth) })
        else
          let newBranch : Branch :=
            { id := branchId, name := branchName, from_step := f, steps := [],
              status := "active", created_at := now, depth := depth }
          let s := { s with branches := mset s.branches branchId newBranch,
                            branchDepthCache := [] }
          let s := setHist s (fun h =>
            { h with metadata := { h.metadata with branches_created := h.metadata.branches_created + 1 } })
          addStepToBranch s stepId branchId
      | some _ => addStepToBranch s stepId branchId

/-- Result of `validateDependencies`. -/
structure DepResult where
  valid : Bool
  missing : List ℚ
  circular : Bool
deriving DecidableEq, Repr

/-- `validateDependencies`: self or forward dependency is circular (fatal);
dependencies absent from the known-step-numbers set are merely missing. -/
def validateDependencies (s : EngineState) (step : CrashStep) : DepResult :=
  match step.dependencies with
  | none => { valid := true, missing := [], circular := false }
  | some deps =>
    if deps.isEmpty then { valid := true, missing := [], circular := false }
    else
      let n := step.step_number.asNum
      if n ∈ deps then { valid := false, missing := [], circular := true }
      else
        let futureDeps := deps.filter (fun d => decide (n ≤ d))
        if ¬ futureDeps.isEmpty then
          { valid := false, missing := futureDeps, circular := true }
        else
          let missing := deps.filter (fun d => decide (d ∉ s.stepNumbers))
          { valid := missing.isEmpty, missing := missing, circular := false }

/-- The completion-phrase scan of `processStep` step 7. -/
def hasCompletionPhrase (thought : String) : Bool :=
  COMPLETION_PHRASES.any (fun p => strIncludes (jsToLower thought) (jsToLower p))

/-- The success payload of `processStep` (`responseData`).  `branch` carries
(id, echoed `branch_name`, echoed `branch_from`). -/
structure StepResponse where
  step_number : ℚ
  estimated_total : ℚ
  completed : Bool
  total_steps : Nat
  next_action : JSVal
  confidence : Option ℚ
  revised_step : Option ℚ
  branch : Option (String × Option String × Option ℚ)
deriving DecidableEq, Repr

/-- A `processStep` outcome: the success payload, or the catch-block failure
payload (error message and mode-dependent hint). -/
inductive StepResult where
  | ok (resp : StepResponse)
  | err (message : String) (hint : String)
deriving DecidableEq, Repr

/-- Whether a `processStep` outcome is a success. -/
def StepResult.isOk : StepResult → Bool
  | .ok _ => true
  | .err _ _ => false

/-- The failure `hint` field. -/
def hintFor (cfg : CrashConfig) : String :=
  if cfg.validation.strictMode then
    "Strict mode is enabled. Set CRASH_STRICT_MODE=false for flexible validation."
  else "Check that all required fields are provided."

/-- `processStep` session handling: batched cleanup, lazy session creation
(with index reset for the new session only), `lastAccessed` refresh, and
the active-history pointer swap. -/
def sessionPhase (cfg : CrashConfig) (s : EngineState) (input : CrashStep)
    (now : Nat) : EngineState :=
  if truthyStr input.session_id ∧ cfg.features.enableSessions then
    let sid := input.session_id.getD ""
    let s := cleanupExpiredSessions cfg s false now
    let s :=
      if (mget s.sessions sid).isNone then
        { s with histHeap := s.histHeap ++ [createNewHistory now],
                 sessions := mset s.sessions sid { histId := s.histHeap.length, lastAccessed := now },
                 stepIndex := [], stepNumbers := [], toolsUsedSet := [] }
      else s
    match mget s.sessions sid with
    | some entry =>
      { s with sessions := mset s.sessions sid { entry with lastAccessed := now },
               activeHist := entry.histId }
    | none => s
  else s

/-- `processStep` step 7: the completion flag (explicit `is_final_step`
first, completion-phrase scan otherwise). -/
def completionPhase (s : EngineState) (input : CrashStep) : EngineState :=
  if input.is_final_step = some true then
    setHist s (fun h => { h with completed := true })
  else if hasCompletionPhrase input.thought.asStr then
    setHist s (fun h => { h with completed := true })
  else s

/-- `trimHistory`: keep the last `maxHistorySize` steps
(`slice(-max)` / `slice(0, -max)`, including the JS `-0` edge), purge the
dropped step numbers from both indices, delete branches whose `from_step`
was dropped, and invalidate the depth cache. -/
def trimHistory (cfg : CrashConfig) (s : EngineState) : EngineState :=
  let h := getHist s
  let m := cfg.system.maxHistorySize
  if h.steps.length ≤ m then s
  else
    let oldSteps := if m = 0 then [] else h.steps.take (h.steps.length - m)
    let removed := oldSteps.map (fun id => (heapGet s.heap id).step_number.asNum)
    let s := setHist s (fun h =>
      { h with steps := if m = 0 then h.steps else h.steps.drop (h.steps.length - m) })
    { s with stepIndex := s.stepIndex.filter (fun kv => decide (kv.1 ∉ removed)),
             stepNumbers := s.stepNumbers.filter (fun q => decide (q ∉ removed)),
             branches := s.branches.filter (fun kv => decide (kv.2.from_step ∉ removed)),
             branchDepthCache := [] }

/-- Steps 10–11 of `processStep`: tool tracking, append to history, index
updates, and timing metadata (`duration_ms` is the difference of two reads
of the same clock value here, hence 0). -/
def preTrimState (s : EngineState) (input : CrashStep) (stepId : Nat)
    (now : Nat) : EngineState :=
  let toolsUsed := extractToolsUsed (heapGet s.heap stepId)
  let newToolsSet := toolsUsed.foldl sInsert s.toolsUsedSet
  let s := { s with toolsUsedSet := newToolsSet }
  let s := setHist s (fun h =>
    { h with metadata := { h.metadata with tools_used := newToolsSet } })
  let s := setHist s (fun h => { h with steps := h.steps ++ [stepId] })
  let s := { s with stepIndex := mset s.stepIndex input.step_number.asNum stepId,
                    stepNumbers := sInsert s.stepNumbers input.step_number.asNum }
  let s := { s with heap := heapSet s.heap stepId (fun st => { st with duration_ms := some 0 }) }
  setHist s (fun h =>
    { h with metadata := { h.metadata with total_duration_ms := now - s.startTime },
             updated_at := now })

/-- The success tail of `processStep` (steps 10–15): the mutations of
`preTrimState`, then trimming, then the response record. -/
def successTail (cfg : CrashConfig) (s : EngineState) (input : CrashStep)
    (stepId : Nat) (now : Nat) : EngineState × StepResult :=
  let s := trimHistory cfg (preTrimState s input stepId now)
  let finalStep := heapGet s.heap stepId
  let resp : StepResponse :=
    { step_number := input.step_number.asNum,
      estimated_total := input.estimated_total.asNum,
      completed := (getHist s).completed,
      total_steps := (getHist s).steps.length,
      next_action := input.next_action,
      confidence := match input.confidence with
        | .jundef => none
        | v => some v.asNum,
      revised_step := if truthyNum finalStep.revises_step then finalStep.revises_step else none,
      branch := match finalStep.branch_id with
        | some bid =>
          if bid = "" then none
          else some (bid, finalStep.branch_name, finalStep.branch_from)
        | none => none }
  (s, .ok resp)

/-- The allocation of the step object (`const step = input as CrashStep`
plus the `step.timestamp` stamp): the step value joins the heap at index
`s.heap.length`. -/
def allocState (s : EngineState) (input : CrashStep) (now : Nat) : EngineState :=
  { s with heap := s.heap ++ [{ input with timestamp := some now }] }


/-- `processStep`: the single public entry point.  Thrown errors become
failure results; mutations made before a throw persist (JS try/catch does
not roll back). -/
def processStep (cfg : CrashConfig) (s0 : EngineState) (input : CrashStep)
    (now : Nat) : EngineState × StepResult :=
  let fv := validateRequiredFields input
  if ¬ fv.valid then
    (s0, .err ("Missing or invalid required fields: " ++ ", ".intercalate fv.missing)
      (hintFor cfg))
  else
    let cv := validateConfidence input
    if ¬ cv.valid then (s0, .err (cv.error.getD "") (hintFor cfg))
    else if cfg.validation.strictMode ∧ ¬ validateThoughtPrefix cfg input.thought.asStr then
      (s0, .err ("Thought must start with one of: " ++ ", ".intercalate VALID_PREFIXES
        ++ " (strict mode)") (hintFor cfg))
    else if cfg.validation.strictMode ∧ ¬ validateRationale cfg input.rationale.asStr then
      (s0, .err "Rationale must start with \"To \" (strict mode)" (hintFor cfg))
    else if cfg.validation.strictMode ∧ ¬ validatePurpose cfg input.purpose.asStr then
      (s0, .err ("Invalid purpose \"" ++ input.purpose.asStr ++ "\". Valid: "
        ++ ", ".intercalate VALID_PURPOSES ++ " (strict mode)") (hintFor cfg))
    else
      let stepId := s0.heap.length
      let s := allocState s0 input now
      let s := sessionPhase cfg s input now
      let dv := validateDependencies s (heapGet s.heap stepId)
      if dv.circular then
        (s, .err ("Circular dependency detected for step " ++ toString input.step_number.asNum)
          (hintFor cfg))
      else
        let s := completionPhase s input
        let rv := handleRevision cfg s (heapGet s.heap stepId)
        let s := rv.1
        if ¬ rv.2.valid then (s, .err (rv.2.error.getD "") (hintFor cfg))
        else
          let bv := handleBranching cfg s stepId now
          let s := bv.1
          if ¬ bv.2.success then (s, .err (bv.2.error.getD "") (hintFor cfg))
          else successTail cfg s input stepId now

/-- `clearHistory`: fresh active history, all registries and indices except
the session map cleared. -/
def clearHistory (s : EngineState) (now : Nat) : EngineState :=
  { s with histHeap := s.histHeap ++ [createNewHistory now],
           activeHist := s.histHeap.length,
           branches := [], stepIndex := [], stepNumbers := [],
           toolsUsedSet := [], branchDepthCache := [],
           stepsSinceCleanup := 0, startTime := now }

end Crash

namespace Crash

/-! Shared fixtures: the default configuration of `src/config.ts`
(`DEFAULT_CONFIG`, with sessions toggled on where a scenario needs them)
and a minimal valid step. -/

/-- `DEFAULT_CONFIG` restricted to the engine-relevant fields. -/
def defCfg : CrashConfig :=
  { validation := { requireThoughtPrefix := false, requireRationalePrefix := false,
                    allowCustomPurpose := true, strictMode := false },
    features := { enableRevisions := true, enableBranching := true, enableSessions := false },
    system := { maxHistorySize := 100, maxBranchDepth := 5, sessionTimeout := 60 } }

/-- The default configuration with sessions enabled. -/
def sessCfg : CrashConfig :=
  { defCfg with features := { defCfg.features with enableSessions := true } }

/-- A minimal valid step record (the happy-path input of spec §8). -/
def mkStep (n : ℚ) : CrashStep :=
  { step_number := .jnum n, estimated_total := .jnum 3, purpose := .jstr "analysis",
    context := .jstr "c", thought := .jstr "t", outcome := .jstr "o",
    rationale := .jstr "r", next_action := .jstr "a" }

end Crash

namespace Crash

/-! ### C1 — mutation visibility after fatal failures -/

/-- Input for the C1 counterexample: a fully valid step that marks itself
final and tries to revise itself (a future-revision, which is fatal). -/
def c1in : CrashStep := { mkStep 1 with is_final_step := some true, revises_step := some 1 }

/-- C1 counterexample: a `processStep` call that returns a failure (fatal
future-revision) after which a state mutation is visible — the active
history's `completed` flag was already set to `true` by the
completion-detection step, which the source runs before the revision
check.  Before the call the flag was `false`. -/
theorem C1_counterexample :
    (processStep defCfg (initState 0) c1in 0).2 =
      .err "Cannot revise step 1 from step 1: can only revise earlier steps"
        "Check that all required fields are provided." ∧
    (getHist (initState 0)).completed = false ∧
    (getHist (processStep defCfg (initState 0) c1in 0).1).completed = true := by
  refine ⟨by decide, by decide, by decide⟩

/-- C1 amended: no state mutation is visible after failures of required-field
validation, confidence validation, or the strict-mode checks (steps 1–3 of
§4.8); those all short-circuit before any mutation.  (Fatal conditions
occurring later — circular dependency, future-revision, missing branch
source, branch-depth exceeded — can leave visible mutations, as the
counterexample shows.) -/
theorem C1_amended_no_mutation_on_early_failure (cfg : CrashConfig)
    (s : EngineState) (input : CrashStep) (now : Nat)
    (h : (validateRequiredFields input).valid = false ∨
         (validateConfidence input).valid = false ∨
         (cfg.validation.strictMode = true ∧
          (validateThoughtPrefix cfg input.thought.asStr = false ∨
           validateRationale cfg input.rationale.asStr = false ∨
           validatePurpose cfg input.purpose.asStr = false))) :
    (processStep cfg s input now).1 = s ∧
    ∃ msg hint, (processStep cfg s input now).2 = .err msg hint := by
  unfold processStep
  by_cases hf : (validateRequiredFields input).valid
  case neg => simp [hf]
  by_cases hc : (validateConfidence input).valid
  case neg => simp [hf, hc]
  rcases h with h | h | ⟨hs, h⟩
  · exact absurd h (by simp [hf])
  · exact absurd h (by simp [hc])
  by_cases ht : validateThoughtPrefix cfg input.thought.asStr
  case neg => simp [hf, hc, hs, ht]
  by_cases hr : validateRationale cfg input.rationale.asStr
  case neg => simp [hf, hc, hs, ht, hr]
  by_cases hp : validatePurpose cfg input.purpose.asStr
  case neg => simp [hf, hc, hs, ht, hr, hp]
  rcases h with h | h | h
  · exact absurd h (by simp [ht])
  · exact absurd h (by simp [hr])
  · exact absurd h (by simp [hp])

/-- Input for the C1 witness: an otherwise-valid step whose `context` is
whitespace-only. -/
def c1badIn : CrashStep := { mkStep 1 with context := .jstr "   " }

/-- Witness for the amended C1 theorem at a concrete early-failure input. -/
theorem C1_amended_witness :
    (validateRequiredFields c1badIn).valid = false ∧
    ((processStep defCfg (initState 0) c1badIn 0).1 = initState 0 ∧
     ∃ msg hint, (processStep defCfg (initState 0) c1badIn 0).2 = .err msg hint) :=
  ⟨by decide,
   C1_amended_no_mutation_on_early_failure defCfg (initState 0) c1badIn 0
     (Or.inl (by decide))⟩

/-! ### C2 — derived indices on session switch-back -/

/-- First C2 call: step 1 under session "A". -/
def c2in1 : CrashStep := { mkStep 1 with session_id := some "A" }

/-- Second C2 call: step 1 under session "B" (creates B, resets indices). -/
def c2in2 : CrashStep := { mkStep 1 with session_id := some "B" }

/-- Third C2 call: switch back to session "A" and revise step 1. -/
def c2in3 : CrashStep := { mkStep 2 with session_id := some "A", revises_step := some 1 }

/-- State after the first two C2 calls. -/
def c2state2 : EngineState :=
  (processStep sessCfg
    (processStep sessCfg (initState 0) c2in1 0).1 c2in2 0).1

/-- The full three-call C2 run. -/
def c2run : EngineState × StepResult := processStep sessCfg c2state2 c2in3 0

/-- C2, evaluated at the failing input: after switching back to session "A",
the derived step index still reflects session "B"'s history, so revising
step 1 from session "A" marks session "B"'s step 1 (heap cell 1, the only
member of B's history) and leaves session "A"'s own step 1 (heap cell 0)
unmarked.  The code only resets the indices when a session is created, not
when an existing session is re-activated. -/
theorem C2_code_bug_eval :
    c2run.2.isOk = true ∧
    mget c2run.1.sessions "A" = some { histId := 1, lastAccessed := 0 } ∧
    mget c2run.1.sessions "B" = some { histId := 2, lastAccessed := 0 } ∧
    (heapGet c2run.1.histHeap 1).steps = [0, 2] ∧
    (heapGet c2run.1.histHeap 2).steps = [1] ∧
    (heapGet c2run.1.heap 0).revised_by = none ∧
    (heapGet c2run.1.heap 1).revised_by = some 2 := by
  refine ⟨by decide, by decide, by decide, by decide, by decide, by decide, by decide⟩

/-! ### C5 — revision handling -/

/-- C5 counterexample: revising a numerically earlier but never-created step
from an empty history succeeds (as the claim says) but still increments the
revisions counter — the source increments it outside the found/not-found
branch, so the "incremented only in the found case" part is false. -/
theorem C5_counterexample :
    mget (initState 0).stepIndex 1 = none ∧
    (processStep defCfg (initState 0) { mkStep 2 with revises_step := some 1 } 0).2.isOk = true ∧
    (getHist (processStep defCfg (initState 0)
      { mkStep 2 with revises_step := some 1 } 0).1).metadata.revisions_count = 1 := by
  refine ⟨by decide, by decide, by decide⟩

/-! ### C8 — auto branch naming -/

/-- Configuration for the C8 scenario: history capped at 2 so that trimming
deletes a branch. -/
def c8cfg : CrashConfig :=
  { defCfg with system := { defCfg.system with maxHistorySize := 2 } }

/-- C8 state after step 1 and a branching step 2 (branch id "x", no
`branch_name` supplied). -/
def c8state2 : EngineState :=
  (processStep c8cfg
    (processStep c8cfg (initState 0) (mkStep 1) 0).1
    { mkStep 2 with branch_from := some 1, branch_id := some "x" } 0).1

/-- C8 state after step 3, whose append trims step 1 away and thereby
deletes branch "x". -/
def c8state3 : EngineState := (processStep c8cfg c8state2 (mkStep 3) 0).1

/-- The fourth C8 call: a new auto-named branch "y" from step 3. -/
def c8run4 : EngineState × StepResult :=
  processStep c8cfg c8state3 { mkStep 4 with branch_from := some 3, branch_id := some "y" } 0

/-- C8 counterexample: branch "x" is auto-named "Alternative 1"; after
trimming deletes it, the next auto-named branch "y" is again named
"Alternative 1" — the auto number is `branches.size + 1` at creation time,
so numbering IS reused after a deletion, and the next N is not strictly
greater than every previously assigned N. -/
theorem C8_counterexample :
    (mget c8state2.branches "x").map Branch.name = some "Alternative 1" ∧
    mget c8state3.branches "x" = none ∧
    c8run4.2.isOk = true ∧
    (mget c8run4.1.branches "y").map Branch.name = some "Alternative 1" := by
  refine ⟨by decide, by decide, by decide, by decide⟩

end Crash

namespace Crash

/-! ### Helper lemmas about the heap and map primitives -/

/-- Reading back a cell just mutated in place. -/
theorem heapGet_heapSet_self {α : Type} [Inhabited α] (l : List α) (i : Nat)
    (f : α → α) (h : i < l.length) :
    heapGet (heapSet l i f) i = f (heapGet l i) := by
  unfold heapGet heapSet
  induction l generalizing i with
  | nil => simp at h
  | cons x xs ih =>
    cases i with
    | zero => simp [List.set, List.getD, heapGet]
    | succ j =>
      simp only [List.set, List.getD_cons_succ]
      exact ih j (by simpa using h)

/-- Mutating one cell leaves the others unchanged. -/
theorem heapGet_heapSet_ne {α : Type} [Inhabited α] (l : List α) (i j : Nat)
    (f : α → α) (h : i ≠ j) :
    heapGet (heapSet l i f) j = heapGet l j := by
  unfold heapGet heapSet
  induction l generalizing i j with
  | nil => simp [List.set]
  | cons x xs ih =>
    cases i with
    | zero =>
      cases j with
      | zero => exact absurd rfl h
      | succ k => simp [List.set, List.getD]
    | succ i' =>
      cases j with
      | zero => simp [List.set, List.getD]
      | succ k => simpa [List.set, List.getD] using ih i' k (fun hc => h (by omega))

/-- Appending to the heap leaves existing cells unchanged. -/
theorem heapGet_append {α : Type} [Inhabited α] (l : List α) (x : α) (i : Nat)
    (h : i < l.length) :
    heapGet (l ++ [x]) i = heapGet l i := by
  unfold heapGet
  induction l generalizing i with
  | nil => simp at h
  | cons y ys ih =>
    cases i with
    | zero => simp [List.getD]
    | succ j => simpa [List.getD] using ih j (by simp at h; omega)

/-- Reading the freshly appended cell. -/
theorem heapGet_append_self {α : Type} [Inhabited α] (l : List α) (x : α) :
    heapGet (l ++ [x]) l.length = x := by
  unfold heapGet
  induction l with
  | nil => simp [List.getD]
  | cons y ys ih =>
    simp only [List.cons_append, List.length_cons, List.getD_cons_succ]
    exact ih

/-- The allocated heap is the old heap plus the stamped step. -/
theorem allocState_heap (s : EngineState) (input : CrashStep) (now : Nat) :
    (allocState s input now).heap = s.heap ++ [{ input with timestamp := some now }] := rfl

/-- Allocation touches only the heap. -/
theorem allocState_getHist (s : EngineState) (input : CrashStep) (now : Nat) :
    getHist (allocState s input now) = getHist s := rfl

/-- Filtering by a key predicate commutes with lookup. -/
theorem mget_filter_key {κ α : Type} [DecidableEq κ] (m : List (κ × α))
    (P : κ → Bool) (k : κ) :
    mget (m.filter (fun kv => P kv.1)) k = if P k then mget m k else none := by
  induction m with
  | nil => simp [mget]
  | cons kv rest ih =>
    by_cases hk : kv.1 = k
    · by_cases hp : P kv.1 = true
      · subst hk; simp [mget, List.filter, hp]
      · subst hk
        have hp' : P kv.1 = false := by simpa using hp
        simp [mget, List.filter, hp', ih]
    · by_cases hp : P kv.1 = true
      · simp [mget, List.filter, hp, hk, ih]
      · have hp' : P kv.1 = false := by simpa using hp
        simp [mget, List.filter, hp', hk, ih]

/-- A key absent before filtering is absent after. -/
theorem mget_filter_none {κ α : Type} [DecidableEq κ] (m : List (κ × α))
    (P : κ × α → Bool) (k : κ) (h : mget m k = none) :
    mget (m.filter P) k = none := by
  induction m with
  | nil => simp [mget]
  | cons kv rest ih =>
    by_cases hk : kv.1 = k
    · simp [mget, hk] at h
    · have h' : mget rest k = none := by simpa [mget, hk] using h
      by_cases hp : P kv = true
      · simp [mget, List.filter, hp, hk, ih h']
      · have hp' : P kv = false := by simpa using hp
        simp [mget, List.filter, hp', ih h']

/-- A key not among a map's keys looks up to nothing. -/
theorem mget_eq_none_of_not_mem {κ α : Type} [DecidableEq κ] (m : List (κ × α))
    (k : κ) (h : k ∉ m.map Prod.fst) : mget m k = none := by
  induction m with
  | nil => rfl
  | cons kv rest ih =>
    have h1 : ¬ kv.1 = k := fun hc => h (by simp [hc])
    have h2 : k ∉ rest.map Prod.fst := fun hc => h (by simp [hc])
    simp [mget, h1, ih h2]

/-- Lookup after filtering, for a map with distinct keys. -/
theorem mget_filter_nodup {κ α : Type} [DecidableEq κ] (m : List (κ × α))
    (P : κ × α → Bool) (k : κ) (v : α)
    (hnd : (m.map Prod.fst).Nodup) (h : mget m k = some v) :
    mget (m.filter P) k = if P (k, v) then some v else none := by
  induction m with
  | nil => simp [mget] at h
  | cons kv rest ih =>
    have hnd' : (rest.map Prod.fst).Nodup := (List.nodup_cons.mp hnd).2
    by_cases hk : kv.1 = k
    · have hv : kv.2 = v := by simpa [mget, hk] using h
      have habs : kv.1 ∉ rest.map Prod.fst := (List.nodup_cons.mp hnd).1
      have hrest : mget rest k = none :=
        mget_eq_none_of_not_mem rest k (by rw [← hk]; exact habs)
      have hkv : kv = (k, v) := by
        cases kv; simp_all
      by_cases hp : P (k, v) = true
      · simp [hkv, List.filter, hp, mget]
      · have hp' : P (k, v) = false := by simpa using hp
        simp [hkv, List.filter, hp', mget_filter_none _ _ _ hrest]
    · have h' : mget rest k = some v := by simpa [mget, hk] using h
      by_cases hp : P kv = true
      · simp [List.filter, hp, mget, hk, ih hnd' h']
      · have hp' : P kv = false := by simpa using hp
        simp [List.filter, hp', ih hnd' h']

end Crash

namespace Crash

/-! ### C4 — history trimming -/

/-- The step numbers of the steps a trim drops (the `removedStepNumbers` set
of `trimHistory`). -/
def trimRemoved (cfg : CrashConfig) (s : EngineState) : List ℚ :=
  (if cfg.system.maxHistorySize = 0 then []
   else (getHist s).steps.take ((getHist s).steps.length - cfg.system.maxHistorySize)).map
    (fun id => (heapGet s.heap id).step_number.asNum)

/-- Configuration for the C4 scenario (`maxHistorySize = 3`). -/
def c4cfg : CrashConfig :=
  { defCfg with system := { defCfg.system with maxHistorySize := 3 } }

/-- The C4 scenario run: five sequential steps numbered 1..5. -/
def c4run : EngineState :=
  [(1 : ℚ), 2, 3, 4, 5].foldl (fun s n => (processStep c4cfg s (mkStep n) 0).1) (initState 0)

/-- C4: when a trim fires, exactly the oldest excess steps are dropped (the
history becomes the suffix of the most recently appended `maxHistorySize`
steps, in order), every dropped step number disappears from the step index
and the known-step-numbers set (and no other entry does), and a registered
branch survives exactly when its `from_step` was not dropped.  Concretely,
with `maxHistorySize = 3` and five sequential steps 1..5 the history holds
exactly the step numbers [3, 4, 5] in order. -/
theorem C4_trim_drops_oldest (cfg : CrashConfig) (s : EngineState)
    (hm : 1 ≤ cfg.system.maxHistorySize)
    (hlen : cfg.system.maxHistorySize < (getHist s).steps.length)
    (hnd : (s.branches.map Prod.fst).Nodup) :
    ((getHist (trimHistory cfg s)).steps =
      (getHist s).steps.drop ((getHist s).steps.length - cfg.system.maxHistorySize) ∧
     (getHist (trimHistory cfg s)).steps.length = cfg.system.maxHistorySize) ∧
    (∀ q : ℚ, mget (trimHistory cfg s).stepIndex q =
      if q ∈ trimRemoved cfg s then none else mget s.stepIndex q) ∧
    (∀ q : ℚ, q ∈ (trimHistory cfg s).stepNumbers ↔
      q ∈ s.stepNumbers ∧ q ∉ trimRemoved cfg s) ∧
    (∀ bid br, mget s.branches bid = some br →
      mget (trimHistory cfg s).branches bid =
        if br.from_step ∈ trimRemoved cfg s then none else some br) ∧
    ((getHist c4run).steps.map (fun id => (heapGet c4run.heap id).step_number.asNum) =
        [3, 4, 5] ∧
     mget c4run.stepIndex 1 = none ∧ mget c4run.stepIndex 2 = none ∧
     (1 : ℚ) ∉ c4run.stepNumbers ∧ (2 : ℚ) ∉ c4run.stepNumbers ∧
     (3 : ℚ) ∈ c4run.stepNumbers ∧ (4 : ℚ) ∈ c4run.stepNumbers ∧
     (5 : ℚ) ∈ c4run.stepNumbers) := by
  have hm0 : cfg.system.maxHistorySize ≠ 0 := by omega
  have hactive : s.activeHist < s.histHeap.length := by
    by_contra hc
    push_neg at hc
    have hd : getHist s = default := by
      unfold getHist heapGet
      exact List.getD_eq_default _ _ hc
    have hnil : (getHist s).steps = [] := by rw [hd]; rfl
    rw [hnil] at hlen
    exact absurd hlen (by simp)
  have hcond : ¬ ((getHist s).steps.length ≤ cfg.system.maxHistorySize) := by omega
  have hrem : trimRemoved cfg s =
      ((getHist s).steps.take ((getHist s).steps.length - cfg.system.maxHistorySize)).map
        (fun id => (heapGet s.heap id).step_number.asNum) := by
    unfold trimRemoved
    rw [if_neg hm0]
  have key : trimHistory cfg s =
      { setHist s (fun h =>
          { h with steps := h.steps.drop (h.steps.length - cfg.system.maxHistorySize) }) with
        stepIndex := s.stepIndex.filter (fun kv => decide (kv.1 ∉ trimRemoved cfg s)),
        stepNumbers := s.stepNumbers.filter (fun q => decide (q ∉ trimRemoved cfg s)),
        branches := s.branches.filter (fun kv => decide (kv.2.from_step ∉ trimRemoved cfg s)),
        branchDepthCache := [] } := by
    unfold trimHistory
    rw [if_neg hcond, hrem]
    simp only [if_neg hm0]
    rfl
  have hgh : getHist (trimHistory cfg s) =
      { getHist s with
        steps := ((getHist s).steps.drop ((getHist s).steps.length - cfg.system.maxHistorySize)) } := by
    rw [key]
    simp only [getHist, setHist]
    rw [heapGet_heapSet_self _ _ _ hactive]
  refine ⟨⟨?_, ?_⟩, ?_, ?_, ?_, by decide, by decide, by decide, by decide, by decide,
    by decide, by decide, by decide⟩
  · rw [hgh]
  · rw [hgh]
    simp only [List.length_drop]
    omega
  · intro q
    rw [key]
    show mget (s.stepIndex.filter (fun kv => decide (kv.1 ∉ trimRemoved cfg s))) q = _
    rw [mget_filter_key s.stepIndex (fun k => decide (k ∉ trimRemoved cfg s)) q]
    by_cases hq : q ∈ trimRemoved cfg s
    · simp [hq]
    · simp [hq]
  · intro q
    rw [key]
    show q ∈ s.stepNumbers.filter (fun q => decide (q ∉ trimRemoved cfg s)) ↔ _
    simp [List.mem_filter]
  · intro bid br hbr
    rw [key]
    show mget (s.branches.filter (fun kv => decide (kv.2.from_step ∉ trimRemoved cfg s))) bid = _
    rw [mget_filter_nodup s.branches _ bid br hnd hbr]
    by_cases hq : br.from_step ∈ trimRemoved cfg s
    · simp [hq]
    · simp [hq]

/-- Witness for C4 at a concrete state: two steps under a capacity-1 limit. -/
def c4wState : EngineState :=
  (processStep defCfg (processStep defCfg (initState 0) (mkStep 1) 0).1 (mkStep 2) 0).1

/-- Capacity-1 configuration for the C4 witness. -/
def c4wcfg : CrashConfig :=
  { defCfg with system := { defCfg.system with maxHistorySize := 1 } }

/-- Witness discharging C4's hypotheses at a concrete input. -/
theorem C4_witness :
    1 ≤ c4wcfg.system.maxHistorySize ∧
    c4wcfg.system.maxHistorySize < (getHist c4wState).steps.length ∧
    (getHist (trimHistory c4wcfg c4wState)).steps =
      (getHist c4wState).steps.drop
        ((getHist c4wState).steps.length - c4wcfg.system.maxHistorySize) :=
  ⟨by decide, by decide,
   (C4_trim_drops_oldest c4wcfg c4wState (by decide) (by decide) (by decide)).1.1⟩

end Crash

namespace Crash

/-! ### Frame lemmas for the processing phases -/

/-- Mutating a cell beyond the heap is a no-op (`List.set` out of range). -/
theorem heapSet_oob {α : Type} [Inhabited α] (l : List α) (i : Nat) (f : α → α)
    (h : l.length ≤ i) : heapSet l i f = l := by
  unfold heapSet
  induction l generalizing i with
  | nil => rfl
  | cons x xs ih =>
    cases i with
    | zero => simp at h
    | succ j =>
      have hg : heapGet (x :: xs) (j + 1) = heapGet xs j := by
        simp [heapGet, List.getD]
      simp [List.set, hg, ih j (by simpa using h)]

/-- Dereferencing the active history after mutating it through the pointer. -/
theorem getHist_setHist (s : EngineState) (f : CrashHistory → CrashHistory)
    (h : s.activeHist < s.histHeap.length) :
    getHist (setHist s f) = f (getHist s) :=
  heapGet_heapSet_self _ _ _ h

@[simp] theorem setHist_heap (s : EngineState) (f) : (setHist s f).heap = s.heap := rfl

@[simp] theorem setHist_activeHist (s : EngineState) (f) :
    (setHist s f).activeHist = s.activeHist := rfl

@[simp] theorem setHist_stepIndex (s : EngineState) (f) :
    (setHist s f).stepIndex = s.stepIndex := rfl

@[simp] theorem setHist_stepNumbers (s : EngineState) (f) :
    (setHist s f).stepNumbers = s.stepNumbers := rfl

@[simp] theorem setHist_branches (s : EngineState) (f) :
    (setHist s f).branches = s.branches := rfl

@[simp] theorem setHist_sessions (s : EngineState) (f) :
    (setHist s f).sessions = s.sessions := rfl

@[simp] theorem setHist_toolsUsedSet (s : EngineState) (f) :
    (setHist s f).toolsUsedSet = s.toolsUsedSet := rfl

@[simp] theorem setHist_branchDepthCache (s : EngineState) (f) :
    (setHist s f).branchDepthCache = s.branchDepthCache := rfl

@[simp] theorem setHist_stepsSinceCleanup (s : EngineState) (f) :
    (setHist s f).stepsSinceCleanup = s.stepsSinceCleanup := rfl

@[simp] theorem setHist_startTime (s : EngineState) (f) :
    (setHist s f).startTime = s.startTime := rfl

@[simp] theorem setHist_histHeap_length (s : EngineState) (f) :
    (setHist s f).histHeap.length = s.histHeap.length := by
  show (s.histHeap.set _ _).length = _
  simp

/-- A history projection untouched by the mutator is untouched by `setHist`,
in or out of pointer range. -/
theorem getHist_setHist_proj {β : Type} (s : EngineState)
    (f : CrashHistory → CrashHistory) (g : CrashHistory → β)
    (hf : ∀ h, g (f h) = g h) :
    g (getHist (setHist s f)) = g (getHist s) := by
  by_cases h : s.activeHist < s.histHeap.length
  · rw [getHist_setHist s f h, hf]
  · push_neg at h
    show g (heapGet (heapSet _ _ _) _) = _
    rw [heapSet_oob _ _ _ h]
    rfl

/-- A session-free call leaves the session phase inert. -/
theorem sessionPhase_noop (cfg : CrashConfig) (s : EngineState)
    (input : CrashStep) (now : Nat)
    (h : (truthyStr input.session_id && cfg.features.enableSessions) = false) :
    sessionPhase cfg s input now = s := by
  unfold sessionPhase
  rcases Bool.and_eq_false_iff.mp h with h | h <;> simp [h]

/-- The completion phase only ever touches the active history's `completed`
flag: every other state component is unchanged. -/
theorem completionPhase_frame (s : EngineState) (input : CrashStep) :
    (completionPhase s input).heap = s.heap ∧
    (completionPhase s input).activeHist = s.activeHist ∧
    (completionPhase s input).histHeap.length = s.histHeap.length ∧
    (completionPhase s input).stepIndex = s.stepIndex ∧
    (completionPhase s input).stepNumbers = s.stepNumbers ∧
    (completionPhase s input).branches = s.branches ∧
    (completionPhase s input).sessions = s.sessions ∧
    (completionPhase s input).toolsUsedSet = s.toolsUsedSet ∧
    (completionPhase s input).branchDepthCache = s.branchDepthCache ∧
    (completionPhase s input).stepsSinceCleanup = s.stepsSinceCleanup ∧
    (completionPhase s input).startTime = s.startTime := by
  unfold completionPhase
  split
  · simp
  · split <;> simp

/-- The completion phase leaves every history field except `completed`
unchanged. -/
theorem getHist_completionPhase_steps (s : EngineState) (input : CrashStep) :
    (getHist (completionPhase s input)).steps = (getHist s).steps ∧
    (getHist (completionPhase s input)).metadata = (getHist s).metadata ∧
    (getHist (completionPhase s input)).created_at = (getHist s).created_at ∧
    (getHist (completionPhase s input)).updated_at = (getHist s).updated_at := by
  unfold completionPhase
  split
  · exact ⟨getHist_setHist_proj _ _ _ (fun h => rfl), getHist_setHist_proj _ _ _ (fun h => rfl),
      getHist_setHist_proj _ _ _ (fun h => rfl), getHist_setHist_proj _ _ _ (fun h => rfl)⟩
  · split
    · exact ⟨getHist_setHist_proj _ _ _ (fun h => rfl), getHist_setHist_proj _ _ _ (fun h => rfl),
        getHist_setHist_proj _ _ _ (fun h => rfl), getHist_setHist_proj _ _ _ (fun h => rfl)⟩
    · exact ⟨rfl, rfl, rfl, rfl⟩

/-- A call with no (truthy) `revises_step`, or with revisions disabled, makes
revision handling inert. -/
theorem handleRevision_noop (cfg : CrashConfig) (s : EngineState) (step : CrashStep)
    (h : (truthyNum step.revises_step && cfg.features.enableRevisions) = false) :
    handleRevision cfg s step = (s, { valid := true, error := none }) := by
  unfold handleRevision
  rcases Bool.and_eq_false_iff.mp h with h | h <;> simp [h]

/-- A call with no (truthy) `branch_from`, or with branching disabled, makes
branch handling inert. -/
theorem handleBranching_noop (cfg : CrashConfig) (s : EngineState) (stepId now : Nat)
    (h : (truthyNum (heapGet s.heap stepId).branch_from && cfg.features.enableBranching) = false) :
    handleBranching cfg s stepId now = (s, { success := true, error := none }) := by
  unfold handleBranching
  rcases Bool.and_eq_false_iff.mp h with h | h <;> simp [h]

/-- When the history is within capacity, trimming is a no-op. -/
theorem trimHistory_noop (cfg : CrashConfig) (s : EngineState)
    (h : (getHist s).steps.length ≤ cfg.system.maxHistorySize) :
    trimHistory cfg s = s := by
  unfold trimHistory
  simp [h]

end Crash


namespace Crash

/-- `getHist` only reads the history heap and the pointer, so updates of the
step heap do not affect it. -/
theorem getHist_update_heap (s : EngineState) (b : List CrashStep) :
    getHist { s with heap := b } = getHist s := rfl

/-- `getHist` ignores updates of the two derived indices. -/
theorem getHist_update_indices (s : EngineState) (a : List (ℚ × Nat)) (b : List ℚ) :
    getHist { s with stepIndex := a, stepNumbers := b } = getHist s := rfl

/-- `getHist` ignores updates of the tools set. -/
theorem getHist_update_tools (s : EngineState) (t : List String) :
    getHist { s with toolsUsedSet := t } = getHist s := rfl

/-- The active history after the pre-trim mutations: the step appended, the
tools and timing metadata refreshed, everything else (in particular
`completed` and `revisions_count`) untouched. -/
theorem preTrim_getHist (s : EngineState) (input : CrashStep) (stepId now : Nat)
    (hact : s.activeHist < s.histHeap.length) :
    getHist (preTrimState s input stepId now) =
      { getHist s with
        steps := (getHist s).steps ++ [stepId],
        updated_at := now,
        metadata := { (getHist s).metadata with
          tools_used := (extractToolsUsed (heapGet s.heap stepId)).foldl sInsert s.toolsUsedSet,
          total_duration_ms := now - s.startTime } } := by
  unfold preTrimState
  rw [getHist_setHist _ _ (by simpa using hact)]
  rw [getHist_update_heap, getHist_update_indices]
  rw [getHist_setHist _ _ (by simpa using hact)]
  rw [getHist_setHist _ _ (by simpa using hact)]
  rw [getHist_update_tools]
  rfl

/-- The pre-trim mutations touch only the processed step's heap cell, the
active history, the tools set and the two indices. -/
theorem preTrim_frame (s : EngineState) (input : CrashStep) (stepId now : Nat) :
    (∀ j, j ≠ stepId →
      heapGet (preTrimState s input stepId now).heap j = heapGet s.heap j) ∧
    (preTrimState s input stepId now).branches = s.branches ∧
    (preTrimState s input stepId now).sessions = s.sessions ∧
    (preTrimState s input stepId now).activeHist = s.activeHist ∧
    (preTrimState s input stepId now).histHeap.length = s.histHeap.length ∧
    (preTrimState s input stepId now).branchDepthCache = s.branchDepthCache ∧
    (preTrimState s input stepId now).stepIndex =
      mset s.stepIndex input.step_number.asNum stepId ∧
    (preTrimState s input stepId now).stepNumbers =
      sInsert s.stepNumbers input.step_number.asNum ∧
    (preTrimState s input stepId now).heap.length = s.heap.length := by
  refine ⟨?_, rfl, rfl, rfl, by simp [preTrimState], rfl, rfl, rfl, ?_⟩
  · intro j hj
    exact heapGet_heapSet_ne s.heap stepId j
      (fun st => { st with duration_ms := some 0 }) (fun hc => hj hc.symm)
  · show (heapSet s.heap stepId (fun st => { st with duration_ms := some 0 })).length
      = s.heap.length
    simp [heapSet]

/-- `successTail_facts`: when the append stays within capacity the success
tail returns a success whose `total_steps` counts the appended step, appends
exactly that step to the active history, leaves the revision counter, the
completed flag, the branch registry and the other heap cells alone, and
updates both derived indices with the new step number. -/
theorem successTail_facts (cfg : CrashConfig) (s : EngineState) (input : CrashStep)
    (stepId now : Nat)
    (hact : s.activeHist < s.histHeap.length)
    (hcap : (getHist s).steps.length + 1 ≤ cfg.system.maxHistorySize) :
    (successTail cfg s input stepId now).2.isOk = true ∧
    (∀ resp, (successTail cfg s input stepId now).2 = .ok resp →
      resp.total_steps = (getHist s).steps.length + 1 ∧
      resp.completed = (getHist s).completed) ∧
    (getHist (successTail cfg s input stepId now).1).steps =
      (getHist s).steps ++ [stepId] ∧
    (getHist (successTail cfg s input stepId now).1).metadata.revisions_count =
      (getHist s).metadata.revisions_count ∧
    (getHist (successTail cfg s input stepId now).1).completed = (getHist s).completed ∧
    (successTail cfg s input stepId now).1.branches = s.branches ∧
    (∀ j, j ≠ stepId →
      heapGet (successTail cfg s input stepId now).1.heap j = heapGet s.heap j) ∧
    (successTail cfg s input stepId now).1.stepNumbers =
      sInsert s.stepNumbers input.step_number.asNum ∧
    (successTail cfg s input stepId now).1.stepIndex =
      mset s.stepIndex input.step_number.asNum stepId ∧
    (stepId < s.heap.length →
      heapGet (successTail cfg s input stepId now).1.heap stepId =
        { heapGet s.heap stepId with duration_ms := some 0 }) := by
  have hpre := preTrim_getHist s input stepId now hact
  have hfr := preTrim_frame s input stepId now
  have hlen : (getHist (preTrimState s input stepId now)).steps.length ≤
      cfg.system.maxHistorySize := by
    rw [hpre]
    simpa using hcap
  have htrim : trimHistory cfg (preTrimState s input stepId now) =
      preTrimState s input stepId now := trimHistory_noop _ _ hlen
  have key : successTail cfg s input stepId now =
      (preTrimState s input stepId now,
       .ok { step_number := input.step_number.asNum,
             estimated_total := input.estimated_total.asNum,
             completed := (getHist (preTrimState s input stepId now)).completed,
             total_steps := (getHist (preTrimState s input stepId now)).steps.length,
             next_action := input.next_action,
             confidence := match input.confidence with
               | .jundef => none
               | v => some v.asNum,
             revised_step :=
               if truthyNum (heapGet (preTrimState s input stepId now).heap stepId).revises_step then
                 (heapGet (preTrimState s input stepId now).heap stepId).revises_step
               else none,
             branch := match (heapGet (preTrimState s input stepId now).heap stepId).branch_id with
               | some bid =>
                 if bid = "" then none
                 else some (bid,
                   (heapGet (preTrimState s input stepId now).heap stepId).branch_name,
                   (heapGet (preTrimState s input stepId now).heap stepId).branch_from)
               | none => none }) := by
    unfold successTail
    rw [htrim]
  rw [key]
  refine ⟨rfl, ?_, ?_, ?_, ?_, hfr.2.1, hfr.1, hfr.2.2.2.2.2.2.2.1, hfr.2.2.2.2.2.2.1, ?_⟩
  case refine_5 =>
    intro hlt
    show heapGet (heapSet s.heap stepId (fun st => { st with duration_ms := some 0 })) stepId = _
    rw [heapGet_heapSet_self _ _ _ hlt]
  · intro resp hresp
    have he : StepResult.ok _ = StepResult.ok resp := hresp
    have he2 := he.symm
    injection he2 with hx
    rw [hx, hpre]
    exact ⟨by simp, rfl⟩
  · rw [hpre]
  · rw [hpre]
  · rw [hpre]

end Crash

namespace Crash

/-- The completion phase never touches the step heap. -/
theorem completionPhase_heap (s : EngineState) (input : CrashStep) :
    (completionPhase s input).heap = s.heap :=
  (completionPhase_frame s input).1

/-- Dependency validation flags `circular` whenever some dependency is ≥ the
step's own number (self or forward reference), regardless of whether that
number exists anywhere. -/
theorem validateDependencies_circular (st : EngineState) (step : CrashStep)
    (ds : List ℚ) (hdeps : step.dependencies = some ds)
    (hd : ∃ d ∈ ds, step.step_number.asNum ≤ d) :
    (validateDependencies st step).circular = true := by
  obtain ⟨d, hdm, hdge⟩ := hd
  unfold validateDependencies
  rw [hdeps]
  have hne : ds.isEmpty = false := by
    cases ds
    · simp at hdm
    · rfl
  by_cases hn : step.step_number.asNum ∈ ds
  · simp [hne, hn]
  · have hfut : ds.filter (fun x => decide (step.step_number.asNum ≤ x)) ≠ [] := by
      have : d ∈ ds.filter (fun x => decide (step.step_number.asNum ≤ x)) :=
        List.mem_filter.mpr ⟨hdm, by simpa using hdge⟩
      exact List.ne_nil_of_mem this
    simp [hne, hn, hfut, List.isEmpty_iff]

/-- Dependency validation never flags `circular` when every dependency is
strictly below the step's own number; missing dependencies are merely
collected. -/
theorem validateDependencies_below (st : EngineState) (step : CrashStep)
    (ds : List ℚ) (hdeps : step.dependencies = some ds)
    (hall : ∀ d ∈ ds, d < step.step_number.asNum) :
    (validateDependencies st step).circular = false ∧
    (validateDependencies st step).missing =
      (if ds.isEmpty then [] else ds.filter (fun d => decide (d ∉ st.stepNumbers))) := by
  unfold validateDependencies
  rw [hdeps]
  by_cases hne : ds.isEmpty
  · simp [hne]
  · have hn : step.step_number.asNum ∉ ds := fun hc => absurd (hall _ hc) (lt_irrefl _)
    have hfut : ds.filter (fun x => decide (step.step_number.asNum ≤ x)) = [] := by
      rw [List.filter_eq_nil_iff]
      intro d hdm
      simpa using not_le.mpr (hall d hdm)
    simp [hne, hn, hfut]

/-- The plain success path: once the three validation gates pass and the call
carries no session id, no circular dependency, no (truthy) revision and no
(truthy) branch, `processStep` is exactly the success tail applied after
allocation and the completion phase. -/
theorem processStep_plain (cfg : CrashConfig) (s : EngineState) (input : CrashStep)
    (now : Nat)
    (hfv : (validateRequiredFields input).valid = true)
    (hcv : (validateConfidence input).valid = true)
    (hsm : cfg.validation.strictMode = false)
    (hsid : input.session_id = none)
    (hcirc : (validateDependencies (allocState s input now)
      { input with timestamp := some now }).circular = false)
    (hrev : truthyNum input.revises_step = false ∨ cfg.features.enableRevisions = false)
    (hbr : truthyNum input.branch_from = false ∨ cfg.features.enableBranching = false) :
    processStep cfg s input now =
      successTail cfg (completionPhase (allocState s input now) input)
        input s.heap.length now := by
  have hsidB : (truthyStr input.session_id && cfg.features.enableSessions) = false := by
    rw [hsid]; rfl
  have hrevB : (truthyNum input.revises_step && cfg.features.enableRevisions) = false := by
    rcases hrev with h | h <;> simp [h]
  have hbrB : (truthyNum input.branch_from && cfg.features.enableBranching) = false := by
    rcases hbr with h | h <;> simp [h]
  have hg : heapGet (s.heap ++ [{ input with timestamp := some now }]) s.heap.length =
      { input with timestamp := some now } := heapGet_append_self _ _
  unfold processStep
  simp [hfv, hcv, hsm, sessionPhase_noop, hsidB, completionPhase_heap, allocState_heap, hg,
    hcirc, handleRevision_noop, hrevB, handleBranching_noop, hbrB]

end Crash

namespace Crash

/-- Session cleanup never touches the step heap. -/
theorem cleanupExpiredSessions_heap (cfg : CrashConfig) (s : EngineState)
    (force : Bool) (now : Nat) :
    (cleanupExpiredSessions cfg s force now).heap = s.heap := by
  unfold cleanupExpiredSessions
  dsimp only
  split
  · rfl
  · split <;> rfl

/-- The session phase never touches the step heap. -/
theorem sessionPhase_heap (cfg : CrashConfig) (s : EngineState) (input : CrashStep)
    (now : Nat) : (sessionPhase cfg s input now).heap = s.heap := by
  unfold sessionPhase
  dsimp only
  split
  · repeat' split <;> simp [cleanupExpiredSessions_heap]
  · rfl

/-- C6: with dependencies present, any dependency ≥ the step's own number
(itself included) makes `processStep` fail as a circular dependency,
regardless of whether that number exists anywhere; whereas when every
dependency is strictly smaller, a dependency absent from the known-step-
numbers set is non-fatal: the call succeeds and the step is still appended
to the active history. -/
theorem C6_dependency_validation (cfg : CrashConfig) (s : EngineState)
    (input : CrashStep) (now : Nat) (ds : List ℚ)
    (hfv : (validateRequiredFields input).valid = true)
    (hcv : (validateConfidence input).valid = true)
    (hsm : cfg.validation.strictMode = false)
    (hdeps : input.dependencies = some ds) :
    ((∃ d ∈ ds, input.step_number.asNum ≤ d) →
      (processStep cfg s input now).2 =
        .err ("Circular dependency detected for step " ++ toString input.step_number.asNum)
          (hintFor cfg)) ∧
    (ds ≠ [] → (∀ d ∈ ds, d < input.step_number.asNum) →
     (∃ d ∈ ds, d ∉ s.stepNumbers) →
     input.session_id = none →
     truthyNum input.revises_step = false →
     truthyNum input.branch_from = false →
     s.activeHist < s.histHeap.length →
     (getHist s).steps.length + 1 ≤ cfg.system.maxHistorySize →
     (processStep cfg s input now).2.isOk = true ∧
     (getHist (processStep cfg s input now).1).steps =
       (getHist s).steps ++ [s.heap.length]) := by
  constructor
  · intro hd
    have hg : heapGet (s.heap ++ [{ input with timestamp := some now }]) s.heap.length =
        { input with timestamp := some now } := heapGet_append_self _ _
    have hcirc := validateDependencies_circular
      (sessionPhase cfg (allocState s input now) input now)
      { input with timestamp := some now } ds hdeps hd
    unfold processStep
    simp [hfv, hcv, hsm, sessionPhase_heap, allocState_heap, hg, hcirc]
  · intro hne hall hmiss hsid hrev hbr hact hcap
    have hcirc := (validateDependencies_below (allocState s input now)
      { input with timestamp := some now } ds hdeps hall).1
    rw [processStep_plain cfg s input now hfv hcv hsm hsid hcirc (Or.inl hrev) (Or.inl hbr)]
    have hfr := completionPhase_frame (allocState s input now) input
    have hact2 : (completionPhase (allocState s input now) input).activeHist <
        (completionPhase (allocState s input now) input).histHeap.length := by
      rw [hfr.2.1, hfr.2.2.1]
      exact hact
    have hsteps := (getHist_completionPhase_steps (allocState s input now) input).1
    have hcap2 : (getHist (completionPhase (allocState s input now) input)).steps.length + 1 ≤
        cfg.system.maxHistorySize := by
      rw [hsteps]
      exact hcap
    have hfacts := successTail_facts cfg _ input s.heap.length now hact2 hcap2
    refine ⟨hfacts.1, ?_⟩
    rw [hfacts.2.2.1, hsteps]
    rfl

end Crash

namespace Crash

/-- Concrete pre-state for the C6 witness: one processed step. -/
def c6wState : EngineState := (processStep defCfg (initState 0) (mkStep 1) 0).1

/-- Concrete input for the C6 witness: step 3 depending on the never-created
step 2. -/
def c6wIn : CrashStep := { mkStep 3 with dependencies := some [2] }

/-- Witness discharging C6's hypotheses at a concrete input (missing smaller
dependency: the call still succeeds and appends). -/
theorem C6_witness :
    (processStep defCfg c6wState c6wIn 0).2.isOk = true ∧
    (getHist (processStep defCfg c6wState c6wIn 0).1).steps =
      (getHist c6wState).steps ++ [c6wState.heap.length] :=
  (C6_dependency_validation defCfg c6wState c6wIn 0 [2] (by decide) (by decide) rfl rfl).2
    (by decide) (by decide) (by decide) rfl rfl rfl (by decide) (by decide)

/-- Dependency validation with no dependency list is trivially valid. -/
theorem validateDependencies_none (st : EngineState) (step : CrashStep)
    (h : step.dependencies = none) :
    validateDependencies st step = { valid := true, missing := [], circular := false } := by
  unfold validateDependencies
  rw [h]

/-- `handleRevision` with an active (truthy, enabled) revision: fatal when
the target is not strictly earlier; otherwise the original step (when the
index finds it) is marked in place and the revisions counter is incremented
in both the found and the not-found case. -/
theorem handleRevision_active (cfg : CrashConfig) (st : EngineState)
    (step : CrashStep) (r : ℚ)
    (h : step.revises_step = some r) (hr0 : r ≠ 0)
    (hen : cfg.features.enableRevisions = true) :
    handleRevision cfg st step =
      if step.step_number.asNum ≤ r then
        (st, { valid := false,
               error := some ("Cannot revise step " ++ toString r ++ " from step "
                 ++ toString step.step_number.asNum ++ ": can only revise earlier steps") })
      else
        (setHist (match mget st.stepIndex r with
           | some id => { st with heap := (heapSet st.heap id
               (fun orig => { orig with revised_by := some step.step_number.asNum })) }
           | none => st)
          (fun h => { h with metadata :=
            { h.metadata with revisions_count := h.metadata.revisions_count + 1 } }),
         { valid := true, error := none }) := by
  have ht : truthyNum step.revises_step = true := by
    rw [h]
    simp [truthyNum, hr0]
  unfold handleRevision
  rw [ht, hen, h]
  simp only [Option.getD_some]
  rw [if_neg (by simp)]

end Crash

namespace Crash

/-- Standalone frame lemmas extracted for rewriting. -/
theorem completionPhase_stepIndex (s : EngineState) (input : CrashStep) :
    (completionPhase s input).stepIndex = s.stepIndex :=
  (completionPhase_frame s input).2.2.2.1

/-- The completion phase preserves the pointer. -/
theorem completionPhase_activeHist (s : EngineState) (input : CrashStep) :
    (completionPhase s input).activeHist = s.activeHist :=
  (completionPhase_frame s input).2.1

/-- The completion phase preserves the history-heap size. -/
theorem completionPhase_histLen (s : EngineState) (input : CrashStep) :
    (completionPhase s input).histHeap.length = s.histHeap.length :=
  (completionPhase_frame s input).2.2.1

/-- After the three gates pass with a session-free, dependency-free call,
`processStep` is allocation, completion, then the revision/branching
pipeline on the allocated step. -/
theorem processStep_afterDeps (cfg : CrashConfig) (s : EngineState)
    (input : CrashStep) (now : Nat)
    (hfv : (validateRequiredFields input).valid = true)
    (hcv : (validateConfidence input).valid = true)
    (hsm : cfg.validation.strictMode = false)
    (hsid : input.session_id = none)
    (hdeps : input.dependencies = none) :
    processStep cfg s input now =
      (let rv := handleRevision cfg (completionPhase (allocState s input now) input)
         { input with timestamp := some now }
       if ¬ rv.2.valid then (rv.1, .err (rv.2.error.getD "") (hintFor cfg))
       else
         let bv := handleBranching cfg rv.1 s.heap.length now
         if ¬ bv.2.success then (bv.1, .err (bv.2.error.getD "") (hintFor cfg))
         else successTail cfg bv.1 input s.heap.length now) := by
  have hsidB : (truthyStr input.session_id && cfg.features.enableSessions) = false := by
    rw [hsid]; rfl
  have hg : heapGet (s.heap ++ [{ input with timestamp := some now }]) s.heap.length =
      { input with timestamp := some now } := heapGet_append_self _ _
  have hdv : validateDependencies (allocState s input now)
      { input with timestamp := some now } =
      { valid := true, missing := [], circular := false } :=
    validateDependencies_none _ _ hdeps
  unfold processStep
  simp [hfv, hcv, hsm, sessionPhase_noop, hsidB, completionPhase_heap, allocState_heap,
    hg, hdv]

end Crash


namespace Crash

/-- Allocation leaves the step index untouched. -/
theorem allocState_stepIndex (s : EngineState) (input : CrashStep) (now : Nat) :
    (allocState s input now).stepIndex = s.stepIndex := rfl

/-- When revision handling succeeds and the step carries no live branch,
`processStep` (past the gates) is the success tail on the post-revision
state. -/
theorem processStep_revDone (cfg : CrashConfig) (s : EngineState) (input : CrashStep)
    (now : Nat) (Z : EngineState)
    (hfv : (validateRequiredFields input).valid = true)
    (hcv : (validateConfidence input).valid = true)
    (hsm : cfg.validation.strictMode = false)
    (hsid : input.session_id = none)
    (hdeps : input.dependencies = none)
    (hrv : handleRevision cfg (completionPhase (allocState s input now) input)
      { input with timestamp := some now } = (Z, { valid := true, error := none }))
    (hbrZ : (truthyNum (heapGet Z.heap s.heap.length).branch_from &&
      cfg.features.enableBranching) = false) :
    processStep cfg s input now = successTail cfg Z input s.heap.length now := by
  rw [processStep_afterDeps cfg s input now hfv hcv hsm hsid hdeps, hrv]
  simp [handleBranching_noop _ _ _ _ hbrZ]

/-- When revision handling fails, `processStep` (past the gates) returns the
error with the strict-mode-dependent hint and the revision-phase state. -/
theorem processStep_revErr (cfg : CrashConfig) (s : EngineState) (input : CrashStep)
    (now : Nat) (Z : EngineState) (e : String)
    (hfv : (validateRequiredFields input).valid = true)
    (hcv : (validateConfidence input).valid = true)
    (hsm : cfg.validation.strictMode = false)
    (hsid : input.session_id = none)
    (hdeps : input.dependencies = none)
    (hrv : handleRevision cfg (completionPhase (allocState s input now) input)
      { input with timestamp := some now } = (Z, { valid := false, error := some e })) :
    processStep cfg s input now = (Z, .err e (hintFor cfg)) := by
  rw [processStep_afterDeps cfg s input now hfv hcv hsm hsid hdeps, hrv]
  simp

/-- `handleRevision` when the earlier target is found: the original is marked
in place (content retained), the counter is incremented, everything else is
framed. -/
theorem handleRevision_found (cfg : CrashConfig) (st : EngineState) (step : CrashStep)
    (r : ℚ) (id : Nat)
    (h : step.revises_step = some r) (hr0 : r ≠ 0)
    (hen : cfg.features.enableRevisions = true)
    (hlt : r < step.step_number.asNum)
    (hfound : mget st.stepIndex r = some id)
    (hid : id < st.heap.length)
    (hact : st.activeHist < st.histHeap.length) :
    ∃ Z, handleRevision cfg st step = (Z, { valid := true, error := none }) ∧
      heapGet Z.heap id = { heapGet st.heap id with revised_by := some step.step_number.asNum } ∧
      (∀ j, j ≠ id → heapGet Z.heap j = heapGet st.heap j) ∧
      Z.heap.length = st.heap.length ∧
      Z.activeHist = st.activeHist ∧
      Z.histHeap.length = st.histHeap.length ∧
      (getHist Z).steps = (getHist st).steps ∧
      (getHist Z).metadata.revisions_count = (getHist st).metadata.revisions_count + 1 ∧
      Z.branches = st.branches ∧
      Z.stepIndex = st.stepIndex ∧
      Z.stepNumbers = st.stepNumbers := by
  refine ⟨setHist { st with heap := (heapSet st.heap id
      (fun orig => { orig with revised_by := some step.step_number.asNum })) }
    (fun h => { h with metadata :=
      { h.metadata with revisions_count := h.metadata.revisions_count + 1 } }),
    ?_, ?_, ?_, ?_, rfl, by simp, ?_, ?_, rfl, rfl, rfl⟩
  · rw [handleRevision_active cfg st step r h hr0 hen, if_neg (not_le.mpr hlt), hfound]
  · rw [setHist_heap]
    exact heapGet_heapSet_self st.heap id
      (fun orig => { orig with revised_by := some step.step_number.asNum }) hid
  · intro j hj
    rw [setHist_heap]
    exact heapGet_heapSet_ne st.heap id j
      (fun orig => { orig with revised_by := some step.step_number.asNum })
      (fun hc => hj hc.symm)
  · rw [setHist_heap]
    show (heapSet st.heap id
      (fun orig => { orig with revised_by := some step.step_number.asNum })).length
      = st.heap.length
    simp [heapSet]
  · rw [getHist_setHist_proj _
      (fun h => { h with metadata :=
        { h.metadata with revisions_count := h.metadata.revisions_count + 1 } })
      CrashHistory.steps (fun h => rfl)]
    rw [getHist_update_heap]
  · rw [getHist_setHist _ _ (by simpa using hact)]
    rw [getHist_update_heap]

/-- `handleRevision` when the earlier target is not found: no failure, the
heap is untouched, and the counter is still incremented. -/
theorem handleRevision_notfound (cfg : CrashConfig) (st : EngineState) (step : CrashStep)
    (r : ℚ)
    (h : step.revises_step = some r) (hr0 : r ≠ 0)
    (hen : cfg.features.enableRevisions = true)
    (hlt : r < step.step_number.asNum)
    (hfound : mget st.stepIndex r = none)
    (hact : st.activeHist < st.histHeap.length) :
    ∃ Z, handleRevision cfg st step = (Z, { valid := true, error := none }) ∧
      Z.heap = st.heap ∧
      Z.activeHist = st.activeHist ∧
      Z.histHeap.length = st.histHeap.length ∧
      (getHist Z).steps = (getHist st).steps ∧
      (getHist Z).metadata.revisions_count = (getHist st).metadata.revisions_count + 1 ∧
      Z.branches = st.branches ∧
      Z.stepIndex = st.stepIndex ∧
      Z.stepNumbers = st.stepNumbers := by
  refine ⟨setHist st (fun h => { h with metadata :=
      { h.metadata with revisions_count := h.metadata.revisions_count + 1 } }),
    ?_, rfl, rfl, by simp, ?_, ?_, rfl, rfl, rfl⟩
  · rw [handleRevision_active cfg st step r h hr0 hen, if_neg (not_le.mpr hlt), hfound]
  · exact getHist_setHist_proj _
      (fun h => { h with metadata :=
        { h.metadata with revisions_count := h.metadata.revisions_count + 1 } })
      CrashHistory.steps (fun h => rfl)
  · rw [getHist_setHist _ _ (by simpa using hact)]

/-- `handleRevision` when the target is not strictly earlier: fatal, state
unchanged, error naming both numbers and the earlier-only constraint. -/
theorem handleRevision_future (cfg : CrashConfig) (st : EngineState) (step : CrashStep)
    (r : ℚ)
    (h : step.revises_step = some r) (hr0 : r ≠ 0)
    (hen : cfg.features.enableRevisions = true)
    (hge : step.step_number.asNum ≤ r) :
    handleRevision cfg st step =
      (st,
       { valid := false,
         error := some ("Cannot revise step " ++ toString r ++ " from step "
           ++ toString step.step_number.asNum ++ ": can only revise earlier steps") }) := by
  rw [handleRevision_active cfg st step r h hr0 hen, if_pos hge]

end Crash

namespace Crash

/-- C5 (amended): with a truthy `revises_step = r` and revisions enabled, a
target `r` that is not strictly earlier fails fatally with the exact error
naming both numbers and the earlier-only constraint; an earlier target that
the index finds is marked `revised_by` in place with its other content
retained; an earlier target that is not found does not fail and the
revising step is still appended.  In both the found and the not-found case
the revisions counter is incremented. -/
theorem C5_amended_revision (cfg : CrashConfig) (s : EngineState) (input : CrashStep)
    (now : Nat) (r : ℚ)
    (hfv : (validateRequiredFields input).valid = true)
    (hcv : (validateConfidence input).valid = true)
    (hsm : cfg.validation.strictMode = false)
    (hsid : input.session_id = none)
    (hdeps : input.dependencies = none)
    (hrev : input.revises_step = some r) (hr0 : r ≠ 0)
    (hen : cfg.features.enableRevisions = true)
    (hbr : truthyNum input.branch_from = false)
    (hact : s.activeHist < s.histHeap.length)
    (hcap : (getHist s).steps.length + 1 ≤ cfg.system.maxHistorySize) :
    (input.step_number.asNum ≤ r →
      (processStep cfg s input now).2 =
        .err ("Cannot revise step " ++ toString r ++ " from step "
          ++ toString input.step_number.asNum ++ ": can only revise earlier steps")
          (hintFor cfg)) ∧
    (∀ id, r < input.step_number.asNum → mget s.stepIndex r = some id →
      id < s.heap.length →
      (processStep cfg s input now).2.isOk = true ∧
      heapGet (processStep cfg s input now).1.heap id =
        { heapGet s.heap id with revised_by := some input.step_number.asNum } ∧
      (getHist (processStep cfg s input now).1).metadata.revisions_count =
        (getHist s).metadata.revisions_count + 1 ∧
      (getHist (processStep cfg s input now).1).steps =
        (getHist s).steps ++ [s.heap.length]) ∧
    (r < input.step_number.asNum → mget s.stepIndex r = none →
      (processStep cfg s input now).2.isOk = true ∧
      (getHist (processStep cfg s input now).1).metadata.revisions_count =
        (getHist s).metadata.revisions_count + 1 ∧
      (getHist (processStep cfg s input now).1).steps =
        (getHist s).steps ++ [s.heap.length]) := by
  have hg : heapGet (s.heap ++ [{ input with timestamp := some now }]) s.heap.length =
      { input with timestamp := some now } := heapGet_append_self _ _
  have hstIdx : (completionPhase (allocState s input now) input).stepIndex = s.stepIndex := by
    rw [completionPhase_stepIndex, allocState_stepIndex]
  have hstHeap : (completionPhase (allocState s input now) input).heap =
      s.heap ++ [{ input with timestamp := some now }] := by
    rw [completionPhase_heap, allocState_heap]
  have hstLen : (completionPhase (allocState s input now) input).heap.length =
      s.heap.length + 1 := by
    rw [hstHeap, List.length_append]
    rfl
  have hstAct : (completionPhase (allocState s input now) input).activeHist = s.activeHist :=
    completionPhase_activeHist _ _
  have hstHH : (completionPhase (allocState s input now) input).histHeap.length =
      s.histHeap.length := completionPhase_histLen _ _
  have hgetSteps : (getHist (completionPhase (allocState s input now) input)).steps =
      (getHist s).steps := by
    rw [(getHist_completionPhase_steps _ _).1, allocState_getHist]
  have hgetMeta : (getHist (completionPhase (allocState s input now) input)).metadata =
      (getHist s).metadata := by
    rw [(getHist_completionPhase_steps _ _).2.1, allocState_getHist]
  refine ⟨?_, ?_, ?_⟩
  · intro hge
    have hrvE := handleRevision_future cfg (completionPhase (allocState s input now) input)
      { input with timestamp := some now } r hrev hr0 hen hge
    rw [processStep_revErr cfg s input now _ _ hfv hcv hsm hsid hdeps hrvE]
  · intro id hlt hfound hid
    obtain ⟨Z, hrv, hmark, hoth, hZlen, hZact, hZhh, hZsteps, hZcount, hZbr, hZidx, hZnums⟩ :=
      handleRevision_found cfg (completionPhase (allocState s input now) input)
        { input with timestamp := some now } r id hrev hr0 hen hlt
        (by rw [hstIdx]; exact hfound)
        (by rw [hstLen]; omega)
        (by rw [hstAct, hstHH]; exact hact)
    have hbrZ : (truthyNum (heapGet Z.heap s.heap.length).branch_from &&
        cfg.features.enableBranching) = false := by
      rw [hoth s.heap.length (by omega), hstHeap, hg]
      show (truthyNum input.branch_from && cfg.features.enableBranching) = false
      rw [hbr]
      rfl
    rw [processStep_revDone cfg s input now Z hfv hcv hsm hsid hdeps hrv hbrZ]
    have hactZ : Z.activeHist < Z.histHeap.length := by
      rw [hZact, hZhh, hstAct, hstHH]
      exact hact
    have hcapZ : (getHist Z).steps.length + 1 ≤ cfg.system.maxHistorySize := by
      rw [hZsteps, hgetSteps]
      exact hcap
    have hfacts := successTail_facts cfg Z input s.heap.length now hactZ hcapZ
    refine ⟨hfacts.1, ?_, ?_, ?_⟩
    · rw [hfacts.2.2.2.2.2.2.1 id (by omega), hmark, hstHeap, heapGet_append _ _ _ hid]
    · rw [hfacts.2.2.2.1, hZcount, hgetMeta]
    · rw [hfacts.2.2.1, hZsteps, hgetSteps]
  · intro hlt hfound
    obtain ⟨Z, hrv, hZheap, hZact, hZhh, hZsteps, hZcount, hZbr, hZidx, hZnums⟩ :=
      handleRevision_notfound cfg (completionPhase (allocState s input now) input)
        { input with timestamp := some now } r hrev hr0 hen hlt
        (by rw [hstIdx]; exact hfound)
        (by rw [hstAct, hstHH]; exact hact)
    have hbrZ : (truthyNum (heapGet Z.heap s.heap.length).branch_from &&
        cfg.features.enableBranching) = false := by
      rw [hZheap, hstHeap, hg]
      show (truthyNum input.branch_from && cfg.features.enableBranching) = false
      rw [hbr]
      rfl
    rw [processStep_revDone cfg s input now Z hfv hcv hsm hsid hdeps hrv hbrZ]
    have hactZ : Z.activeHist < Z.histHeap.length := by
      rw [hZact, hZhh, hstAct, hstHH]
      exact hact
    have hcapZ : (getHist Z).steps.length + 1 ≤ cfg.system.maxHistorySize := by
      rw [hZsteps, hgetSteps]
      exact hcap
    have hfacts := successTail_facts cfg Z input s.heap.length now hactZ hcapZ
    refine ⟨hfacts.1, ?_, ?_⟩
    · rw [hfacts.2.2.2.1, hZcount, hgetMeta]
    · rw [hfacts.2.2.1, hZsteps, hgetSteps]

/-- Concrete pre-state for the C5 witness: one processed step. -/
def c5wState : EngineState := (processStep defCfg (initState 0) (mkStep 1) 0).1

/-- Concrete input for the C5 witness: step 2 revising step 1. -/
def c5wIn : CrashStep := { mkStep 2 with revises_step := some 1 }

/-- Witness discharging C5's hypotheses at a concrete input (found case:
step 1 is marked revised and the counter is incremented). -/
theorem C5_amended_witness :
    (processStep defCfg c5wState c5wIn 0).2.isOk = true ∧
    heapGet (processStep defCfg c5wState c5wIn 0).1.heap 0 =
      { heapGet c5wState.heap 0 with revised_by := some c5wIn.step_number.asNum } ∧
    (getHist (processStep defCfg c5wState c5wIn 0).1).metadata.revisions_count =
      (getHist c5wState).metadata.revisions_count + 1 ∧
    (getHist (processStep defCfg c5wState c5wIn 0).1).steps =
      (getHist c5wState).steps ++ [c5wState.heap.length] :=
  (C5_amended_revision defCfg c5wState c5wIn 0 1 (by decide) (by decide) rfl rfl rfl rfl
    (by decide) rfl rfl (by decide) (by decide)).2.1 0 (by decide) (by decide) (by decide)

end Crash

namespace Crash

/-- Writing a key reads back. -/
theorem mget_mset_self {κ α : Type} [DecidableEq κ] (m : List (κ × α)) (k : κ) (v : α) :
    mget (mset m k v) k = some v := by
  induction m with
  | nil => simp [mget, mset]
  | cons kv rest ih =>
    by_cases hk : kv.1 = k
    · simp [mset, hk, mget]
    · simp [mset, hk, mget, ih]

/-- Writing twice at a key keeps the second value. -/
theorem mset_mset_self {κ α : Type} [DecidableEq κ] (m : List (κ × α)) (k : κ) (v v' : α) :
    mset (mset m k v) k v' = mset m k v' := by
  induction m with
  | nil => simp [mset]
  | cons kv rest ih =>
    by_cases hk : kv.1 = k
    · simp [mset, hk]
    · simp [mset, hk, ih]

/-- Writing one key leaves the others. -/
theorem mget_mset_ne {κ α : Type} [DecidableEq κ] (m : List (κ × α)) (k k' : κ) (v : α)
    (h : k' ≠ k) : mget (mset m k v) k' = mget m k' := by
  have hne : ¬ k = k' := fun hc => h hc.symm
  induction m with
  | nil => simp [mget, mset, hne]
  | cons kv rest ih =>
    by_cases hk : kv.1 = k
    · subst hk
      simp [mset, mget, hne]
    · simp [mset, mget, hk, ih]

/-- Writing a fresh key appends (JS `Map.set` keeps insertion order). -/
theorem mset_of_absent {κ α : Type} [DecidableEq κ] (m : List (κ × α)) (k : κ) (v : α)
    (h : mget m k = none) : mset m k v = m ++ [(k, v)] := by
  induction m with
  | nil => simp [mset]
  | cons kv rest ih =>
    by_cases hk : kv.1 = k
    · simp [mget, hk] at h
    · have h' : mget rest k = none := by simpa [mget, hk] using h
      simp [mset, hk, ih h']

/-- The memoised depth computation only touches the depth cache. -/
theorem calcDepth_frame (st : EngineState) (q : ℚ) :
    (calculateBranchDepth st q).1.heap = st.heap ∧
    (calculateBranchDepth st q).1.branches = st.branches ∧
    (calculateBranchDepth st q).1.histHeap = st.histHeap ∧
    (calculateBranchDepth st q).1.activeHist = st.activeHist ∧
    (calculateBranchDepth st q).1.stepNumbers = st.stepNumbers ∧
    (calculateBranchDepth st q).1.stepIndex = st.stepIndex := by
  unfold calculateBranchDepth
  cases hc : mget st.branchDepthCache q
  · cases hf : findContainingBranch st.branches st.heap q <;> simp
  · simp

end Crash

namespace Crash

/-- `handleBranching` creating a fresh branch: success, the branch registered
under its (possibly synthesized) id with the auto name "Alternative
(registry size + 1)" when no `branch_name` was supplied, the computed depth,
and the processed step pushed onto the branch; the step's `branch_id` is
tagged in place and the rest of the state is framed. -/
theorem handleBranching_create (cfg : CrashConfig) (st sd1 : EngineState)
    (stepId now : Nat) (f : ℚ) (d : Nat) (bid : String)
    (hbf : (heapGet st.heap stepId).branch_from = some f) (hf0 : f ≠ 0)
    (hen : cfg.features.enableBranching = true)
    (hmem : f ∈ st.stepNumbers)
    (hbid : orElseStr (heapGet st.heap stepId).branch_id ("branch-" ++ toString now) = bid)
    (hnew : mget st.branches bid = none)
    (hcd : calculateBranchDepth st f = (sd1, d))
    (hdepth : d ≤ cfg.system.maxBranchDepth)
    (hstep : stepId < st.heap.length)
    (hact : st.activeHist < st.histHeap.length) :
    (handleBranching cfg st stepId now).2 = { success := true, error := none } ∧
    mget (handleBranching cfg st stepId now).1.branches bid =
      some { id := bid, name := orElseStr (heapGet st.heap stepId).branch_name ("Alternative " ++ toString (st.branches.length + 1)), from_step := f, steps := [stepId], status := "active", created_at := now, depth := d } ∧
    heapGet (handleBranching cfg st stepId now).1.heap stepId =
      { heapGet st.heap stepId with branch_id := some bid } ∧
    (∀ j, j ≠ stepId →
      heapGet (handleBranching cfg st stepId now).1.heap j = heapGet st.heap j) ∧
    (handleBranching cfg st stepId now).1.heap.length = st.heap.length ∧
    (handleBranching cfg st stepId now).1.activeHist = st.activeHist ∧
    (handleBranching cfg st stepId now).1.histHeap.length = st.histHeap.length ∧
    (getHist (handleBranching cfg st stepId now).1).steps = (getHist st).steps ∧
    (getHist (handleBranching cfg st stepId now).1).metadata.revisions_count =
      (getHist st).metadata.revisions_count ∧
    (handleBranching cfg st stepId now).1.stepNumbers = st.stepNumbers ∧
    (handleBranching cfg st stepId now).1.stepIndex = st.stepIndex := by
  have hfr := calcDepth_frame st f
  rw [hcd] at hfr
  have hb : sd1.activeHist < sd1.histHeap.length := by
    rw [hfr.2.2.1, hfr.2.2.2.1]
    exact hact
  have ht : truthyNum (heapGet st.heap stepId).branch_from = true := by
    rw [hbf]
    simp [truthyNum, hf0]
  have key : handleBranching cfg st stepId now =
      ({ heap := (heapSet sd1.heap stepId (fun s => { s with branch_id := some bid })),
          histHeap := (heapSet sd1.histHeap sd1.activeHist (fun h => { h with metadata := { h.metadata with branches_created := h.metadata.branches_created + 1 } })),
          activeHist := sd1.activeHist,
          startTime := sd1.startTime,
          branches := (mset (mset sd1.branches bid { id := bid, name := orElseStr (heapGet st.heap stepId).branch_name ("Alternative " ++ toString (st.branches.length + 1)), from_step := f, steps := ([] : List Nat), status := "active", created_at := now, depth := d }) bid { id := bid, name := orElseStr (heapGet st.heap stepId).branch_name ("Alternative " ++ toString (st.branches.length + 1)), from_step := f, steps := [stepId], status := "active", created_at := now, depth := d }),
          sessions := sd1.sessions,
          stepIndex := sd1.stepIndex,
          stepNumbers := sd1.stepNumbers,
          toolsUsedSet := sd1.toolsUsedSet,
          stepsSinceCleanup := sd1.stepsSinceCleanup,
          branchDepthCache := [] },
       { success := true, error := none }) := by
    unfold handleBranching
    dsimp only
    rw [ht, hen]
    rw [if_neg (by simp)]
    rw [hbf]
    simp only [Option.getD_some]
    rw [if_neg (by simpa using hmem)]
    rw [hbid, hnew]
    dsimp only
    rw [hcd]
    dsimp only
    rw [if_neg (not_lt.mpr hdepth)]
    unfold addStepToBranch
    rw [setHist_branches]
    dsimp only
    rw [mget_mset_self]
    dsimp only
    rfl
  rw [key]
  refine ⟨rfl, ?_, ?_, ?_, ?_, ?_, ?_, ?_, ?_, ?_, ?_⟩
  · show mget (mset (mset sd1.branches bid { id := bid, name := orElseStr (heapGet st.heap stepId).branch_name ("Alternative " ++ toString (st.branches.length + 1)), from_step := f, steps := ([] : List Nat), status := "active", created_at := now, depth := d }) bid { id := bid, name := orElseStr (heapGet st.heap stepId).branch_name ("Alternative " ++ toString (st.branches.length + 1)), from_step := f, steps := [stepId], status := "active", created_at := now, depth := d }) bid = _
    rw [mset_mset_self, mget_mset_self]
  · show heapGet (heapSet sd1.heap stepId (fun s => { s with branch_id := some bid })) stepId = _
    rw [hfr.1]
    exact heapGet_heapSet_self st.heap stepId _ hstep
  · intro j hj
    show heapGet (heapSet sd1.heap stepId (fun s => { s with branch_id := some bid })) j = _
    rw [hfr.1]
    exact heapGet_heapSet_ne st.heap stepId j _ (fun hc => hj hc.symm)
  · show (heapSet sd1.heap stepId (fun s => { s with branch_id := some bid })).length = _
    rw [hfr.1]
    simp [heapSet]
  · exact hfr.2.2.2.1
  · show (heapSet sd1.histHeap sd1.activeHist (fun h => { h with metadata := { h.metadata with branches_created := h.metadata.branches_created + 1 } })).length = st.histHeap.length
    simp only [heapSet, List.length_set]
    rw [hfr.2.2.1]
  · show (heapGet (heapSet sd1.histHeap sd1.activeHist (fun h => { h with metadata := { h.metadata with branches_created := h.metadata.branches_created + 1 } })) sd1.activeHist).steps =
      (getHist st).steps
    rw [heapGet_heapSet_self _ _ _ hb]
    show (heapGet sd1.histHeap sd1.activeHist).steps = (heapGet st.histHeap st.activeHist).steps
    rw [hfr.2.2.1, hfr.2.2.2.1]
  · show (heapGet (heapSet sd1.histHeap sd1.activeHist (fun h => { h with metadata := { h.metadata with branches_created := h.metadata.branches_created + 1 } })) sd1.activeHist).metadata.revisions_count =
      (getHist st).metadata.revisions_count
    rw [heapGet_heapSet_self _ _ _ hb]
    show (heapGet sd1.histHeap sd1.activeHist).metadata.revisions_count =
      (heapGet st.histHeap st.activeHist).metadata.revisions_count
    rw [hfr.2.2.1, hfr.2.2.2.1]
  · exact hfr.2.2.2.2.1
  · exact hfr.2.2.2.2.2

end Crash

namespace Crash

/-- `handleBranching` on an already-registered branch id: no depth check,
the step is pushed onto the existing branch and tagged; everything else is
framed. -/
theorem handleBranching_existing (cfg : CrashConfig) (st : EngineState)
    (stepId now : Nat) (f : ℚ) (bid : String) (br0 : Branch)
    (hbf : (heapGet st.heap stepId).branch_from = some f) (hf0 : f ≠ 0)
    (hen : cfg.features.enableBranching = true)
    (hmem : f ∈ st.stepNumbers)
    (hbid : orElseStr (heapGet st.heap stepId).branch_id ("branch-" ++ toString now) = bid)
    (hfound : mget st.branches bid = some br0)
    (hstep : stepId < st.heap.length) :
    (handleBranching cfg st stepId now).2 = { success := true, error := none } ∧
    mget (handleBranching cfg st stepId now).1.branches bid =
      some { br0 with steps := br0.steps ++ [stepId] } ∧
    heapGet (handleBranching cfg st stepId now).1.heap stepId =
      { heapGet st.heap stepId with branch_id := some bid } ∧
    (∀ j, j ≠ stepId →
      heapGet (handleBranching cfg st stepId now).1.heap j = heapGet st.heap j) ∧
    (handleBranching cfg st stepId now).1.heap.length = st.heap.length ∧
    (handleBranching cfg st stepId now).1.activeHist = st.activeHist ∧
    (handleBranching cfg st stepId now).1.histHeap.length = st.histHeap.length ∧
    (getHist (handleBranching cfg st stepId now).1).steps = (getHist st).steps ∧
    (getHist (handleBranching cfg st stepId now).1).metadata.revisions_count =
      (getHist st).metadata.revisions_count ∧
    (handleBranching cfg st stepId now).1.stepNumbers = st.stepNumbers ∧
    (handleBranching cfg st stepId now).1.stepIndex = st.stepIndex := by
  have ht : truthyNum (heapGet st.heap stepId).branch_from = true := by
    rw [hbf]
    simp [truthyNum, hf0]
  have key : handleBranching cfg st stepId now =
      ({ st with
         heap := (heapSet st.heap stepId (fun s => { s with branch_id := some bid })),
         branches := (mset st.branches bid { br0 with steps := br0.steps ++ [stepId] }) },
       { success := true, error := none }) := by
    unfold handleBranching
    dsimp only
    rw [ht, hen]
    rw [if_neg (by simp)]
    rw [hbf]
    simp only [Option.getD_some]
    rw [if_neg (by simpa using hmem)]
    rw [hbid, hfound]
    dsimp only
    unfold addStepToBranch
    rw [hfound]
  rw [key]
  refine ⟨rfl, ?_, ?_, ?_, ?_, rfl, rfl, rfl, rfl, rfl, rfl⟩
  · show mget (mset st.branches bid { br0 with steps := br0.steps ++ [stepId] }) bid = _
    rw [mget_mset_self]
  · show heapGet (heapSet st.heap stepId (fun s => { s with branch_id := some bid })) stepId = _
    exact heapGet_heapSet_self st.heap stepId _ hstep
  · intro j hj
    show heapGet (heapSet st.heap stepId (fun s => { s with branch_id := some bid })) j = _
    exact heapGet_heapSet_ne st.heap stepId j _ (fun hc => hj hc.symm)
  · show (heapSet st.heap stepId (fun s => { s with branch_id := some bid })).length = _
    simp [heapSet]

/-- When branching succeeds after an inert revision phase, `processStep`
(past the gates) is the success tail on the post-branching state. -/
theorem processStep_branchDone (cfg : CrashConfig) (s : EngineState) (input : CrashStep)
    (now : Nat)
    (hfv : (validateRequiredFields input).valid = true)
    (hcv : (validateConfidence input).valid = true)
    (hsm : cfg.validation.strictMode = false)
    (hsid : input.session_id = none)
    (hdeps : input.dependencies = none)
    (hrevN : truthyNum input.revises_step = false)
    (hbv : (handleBranching cfg (completionPhase (allocState s input now) input)
      s.heap.length now).2 = { success := true, error := none }) :
    processStep cfg s input now =
      successTail cfg (handleBranching cfg (completionPhase (allocState s input now) input)
        s.heap.length now).1 input s.heap.length now := by
  rw [processStep_afterDeps cfg s input now hfv hcv hsm hsid hdeps]
  rw [handleRevision_noop cfg _ ({ input with timestamp := some now })
    (by rw [show truthyNum ({ input with timestamp := some now } : CrashStep).revises_step
        = truthyNum input.revises_step from rfl, hrevN]; rfl)]
  dsimp only
  rw [hbv]
  simp

end Crash

namespace Crash

/-- C8 (amended): a branching step that supplies no `branch_name` creates a
branch named "Alternative N" with N = (number of currently registered
branches) + 1 at creation time; since deletion shrinks the registry, the
number is not globally fresh (see the counterexample for reuse after a
trim). -/
theorem C8_amended_autoname (cfg : CrashConfig) (s sd1 : EngineState)
    (input : CrashStep) (now : Nat) (f : ℚ) (d : Nat) (bid : String)
    (hfv : (validateRequiredFields input).valid = true)
    (hcv : (validateConfidence input).valid = true)
    (hsm : cfg.validation.strictMode = false)
    (hsid : input.session_id = none)
    (hdeps : input.dependencies = none)
    (hrevN : truthyNum input.revises_step = false)
    (hbf : input.branch_from = some f) (hf0 : f ≠ 0)
    (hen : cfg.features.enableBranching = true)
    (hname : input.branch_name = none)
    (hmem : f ∈ s.stepNumbers)
    (hbid : orElseStr input.branch_id ("branch-" ++ toString now) = bid)
    (hnew : mget s.branches bid = none)
    (hcd : calculateBranchDepth (completionPhase (allocState s input now) input) f = (sd1, d))
    (hdepth : d ≤ cfg.system.maxBranchDepth)
    (hact : s.activeHist < s.histHeap.length)
    (hcap : (getHist s).steps.length + 1 ≤ cfg.system.maxHistorySize) :
    (processStep cfg s input now).2.isOk = true ∧
    ∃ br, mget (processStep cfg s input now).1.branches bid = some br ∧
      br.name = "Alternative " ++ toString (s.branches.length + 1) ∧
      br.depth = d := by
  have hg : heapGet (s.heap ++ [{ input with timestamp := some now }]) s.heap.length =
      { input with timestamp := some now } := heapGet_append_self _ _
  have hfrC := completionPhase_frame (allocState s input now) input
  have hcr := handleBranching_create cfg (completionPhase (allocState s input now) input)
    sd1 s.heap.length now f d bid
    (by rw [completionPhase_heap, allocState_heap, hg]; exact hbf) hf0 hen
    (by rw [hfrC.2.2.2.2.1]; exact hmem)
    (by rw [completionPhase_heap, allocState_heap, hg]; exact hbid)
    (by rw [hfrC.2.2.2.2.2.1]; exact hnew)
    hcd hdepth
    (by rw [completionPhase_heap, allocState_heap, List.length_append]; simp)
    (by rw [completionPhase_activeHist, completionPhase_histLen]; exact hact)
  rw [processStep_branchDone cfg s input now hfv hcv hsm hsid hdeps hrevN hcr.1]
  have hactZ : (handleBranching cfg (completionPhase (allocState s input now) input)
      s.heap.length now).1.activeHist <
      (handleBranching cfg (completionPhase (allocState s input now) input)
      s.heap.length now).1.histHeap.length := by
    rw [hcr.2.2.2.2.2.1, hcr.2.2.2.2.2.2.1, completionPhase_activeHist, completionPhase_histLen]
    exact hact
  have hcapZ : (getHist (handleBranching cfg (completionPhase (allocState s input now) input)
      s.heap.length now).1).steps.length + 1 ≤ cfg.system.maxHistorySize := by
    rw [hcr.2.2.2.2.2.2.2.1, (getHist_completionPhase_steps _ _).1, allocState_getHist]
    exact hcap
  have hfacts := successTail_facts cfg _ input s.heap.length now hactZ hcapZ
  refine ⟨hfacts.1, ?_⟩
  refine ⟨{ id := bid,
            name := (orElseStr (heapGet (completionPhase (allocState s input now) input).heap s.heap.length).branch_name ("Alternative " ++ toString ((completionPhase (allocState s input now) input).branches.length + 1))),
            from_step := f, steps := [s.heap.length], status := "active",
            created_at := now, depth := d }, ?_, ?_, rfl⟩
  · rw [hfacts.2.2.2.2.2.1]
    exact hcr.2.1
  · show orElseStr (heapGet (completionPhase (allocState s input now) input).heap
      s.heap.length).branch_name ("Alternative " ++ toString
      ((completionPhase (allocState s input now) input).branches.length + 1)) = _
    rw [completionPhase_heap, allocState_heap, hg, hfrC.2.2.2.2.2.1]
    show orElseStr input.branch_name _ = _
    rw [hname]
    rfl

end Crash

namespace Crash

/-- Concrete pre-state for the C8 witness: one processed step, no branches. -/
def c8wState : EngineState := (processStep defCfg (initState 0) (mkStep 1) 0).1

/-- Concrete input for the C8 witness: step 2 branching from step 1 with no
`branch_name` and no `branch_id`. -/
def c8wIn : CrashStep := { mkStep 2 with branch_from := some 1 }

/-- Witness discharging C8's hypotheses at a concrete input: the auto-named
branch is "Alternative 1" (zero branches registered) at depth 1. -/
theorem C8_amended_witness :
    (processStep defCfg c8wState c8wIn 0).2.isOk = true ∧
    ∃ br, mget (processStep defCfg c8wState c8wIn 0).1.branches "branch-0" = some br ∧
      br.name = "Alternative 1" ∧ br.depth = 1 := by
  have h := C8_amended_autoname defCfg c8wState
    (calculateBranchDepth (completionPhase (allocState c8wState c8wIn 0) c8wIn) 1).1
    c8wIn 0 1 1 "branch-0"
    (by decide) (by decide) rfl rfl rfl (by decide) rfl (by decide) rfl rfl
    (by decide) (by decide) rfl rfl (by decide) (by decide) (by decide)
  exact h

end Crash

namespace Crash

/-- C10: for every successful `processStep` call whose step carries a
non-zero `branch_from` (branching enabled), the very same step record —
identified by its heap allocation id — is appended both to the branch's
own steps list and to the active history's main steps list, and the
response's `total_steps` counts it like any main-line step. -/
theorem C10_branch_step_shared (cfg : CrashConfig) (s sd1 : EngineState)
    (input : CrashStep) (now : Nat) (f : ℚ) (d : Nat) (bid : String)
    (hfv : (validateRequiredFields input).valid = true)
    (hcv : (validateConfidence input).valid = true)
    (hsm : cfg.validation.strictMode = false)
    (hsid : input.session_id = none)
    (hdeps : input.dependencies = none)
    (hrevN : truthyNum input.revises_step = false)
    (hbf : input.branch_from = some f) (hf0 : f ≠ 0)
    (hen : cfg.features.enableBranching = true)
    (hmem : f ∈ s.stepNumbers)
    (hbid : orElseStr input.branch_id ("branch-" ++ toString now) = bid)
    (hcase : (mget s.branches bid = none ∧
        calculateBranchDepth (completionPhase (allocState s input now) input) f = (sd1, d) ∧
        d ≤ cfg.system.maxBranchDepth) ∨
      (∃ br0, mget s.branches bid = some br0))
    (hact : s.activeHist < s.histHeap.length)
    (hcap : (getHist s).steps.length + 1 ≤ cfg.system.maxHistorySize) :
    (processStep cfg s input now).2.isOk = true ∧
    (∃ br, mget (processStep cfg s input now).1.branches bid = some br ∧
      br.steps = (mget s.branches bid).elim ([] : List Nat) Branch.steps ++ [s.heap.length]) ∧
    (getHist (processStep cfg s input now).1).steps =
      (getHist s).steps ++ [s.heap.length] ∧
    (∀ resp, (processStep cfg s input now).2 = .ok resp →
      resp.total_steps = (getHist s).steps.length + 1) := by
  have hg : heapGet (s.heap ++ [{ input with timestamp := some now }]) s.heap.length =
      { input with timestamp := some now } := heapGet_append_self _ _
  have hfrC := completionPhase_frame (allocState s input now) input
  rcases hcase with ⟨hnew, hcd, hdepth⟩ | ⟨br0, hfound⟩
  · have hcr := handleBranching_create cfg (completionPhase (allocState s input now) input)
      sd1 s.heap.length now f d bid
      (by rw [completionPhase_heap, allocState_heap, hg]; exact hbf) hf0 hen
      (by rw [hfrC.2.2.2.2.1]; exact hmem)
      (by rw [completionPhase_heap, allocState_heap, hg]; exact hbid)
      (by rw [hfrC.2.2.2.2.2.1]; exact hnew)
      hcd hdepth
      (by rw [completionPhase_heap, allocState_heap, List.length_append]; simp)
      (by rw [completionPhase_activeHist, completionPhase_histLen]; exact hact)
    rw [processStep_branchDone cfg s input now hfv hcv hsm hsid hdeps hrevN hcr.1]
    have hactZ : (handleBranching cfg (completionPhase (allocState s input now) input)
        s.heap.length now).1.activeHist <
        (handleBranching cfg (completionPhase (allocState s input now) input)
        s.heap.length now).1.histHeap.length := by
      rw [hcr.2.2.2.2.2.1, hcr.2.2.2.2.2.2.1, completionPhase_activeHist, completionPhase_histLen]
      exact hact
    have hcapZ : (getHist (handleBranching cfg (completionPhase (allocState s input now) input)
        s.heap.length now).1).steps.length + 1 ≤ cfg.system.maxHistorySize := by
      rw [hcr.2.2.2.2.2.2.2.1, (getHist_completionPhase_steps _ _).1, allocState_getHist]
      exact hcap
    have hfacts := successTail_facts cfg _ input s.heap.length now hactZ hcapZ
    have hm := hcr.2.1
    rw [← hfacts.2.2.2.2.2.1] at hm
    refine ⟨hfacts.1, ⟨_, hm, ?_⟩, ?_, ?_⟩
    · rw [hnew]
      rfl
    · rw [hfacts.2.2.1, hcr.2.2.2.2.2.2.2.1, (getHist_completionPhase_steps _ _).1,
        allocState_getHist]
    · intro resp hresp
      rw [(hfacts.2.1 resp hresp).1, hcr.2.2.2.2.2.2.2.1,
        (getHist_completionPhase_steps _ _).1, allocState_getHist]
  · have hcr := handleBranching_existing cfg (completionPhase (allocState s input now) input)
      s.heap.length now f bid br0
      (by rw [completionPhase_heap, allocState_heap, hg]; exact hbf) hf0 hen
      (by rw [hfrC.2.2.2.2.1]; exact hmem)
      (by rw [completionPhase_heap, allocState_heap, hg]; exact hbid)
      (by rw [hfrC.2.2.2.2.2.1]; exact hfound)
      (by rw [completionPhase_heap, allocState_heap, List.length_append]; simp)
    rw [processStep_branchDone cfg s input now hfv hcv hsm hsid hdeps hrevN hcr.1]
    have hactZ : (handleBranching cfg (completionPhase (allocState s input now) input)
        s.heap.length now).1.activeHist <
        (handleBranching cfg (completionPhase (allocState s input now) input)
        s.heap.length now).1.histHeap.length := by
      rw [hcr.2.2.2.2.2.1, hcr.2.2.2.2.2.2.1, completionPhase_activeHist, completionPhase_histLen]
      exact hact
    have hcapZ : (getHist (handleBranching cfg (completionPhase (allocState s input now) input)
        s.heap.length now).1).steps.length + 1 ≤ cfg.system.maxHistorySize := by
      rw [hcr.2.2.2.2.2.2.2.1, (getHist_completionPhase_steps _ _).1, allocState_getHist]
      exact hcap
    have hfacts := successTail_facts cfg _ input s.heap.length now hactZ hcapZ
    have hm := hcr.2.1
    rw [← hfacts.2.2.2.2.2.1] at hm
    refine ⟨hfacts.1, ⟨_, hm, ?_⟩, ?_, ?_⟩
    · rw [hfound]
      rfl
    · rw [hfacts.2.2.1, hcr.2.2.2.2.2.2.2.1, (getHist_completionPhase_steps _ _).1,
        allocState_getHist]
    · intro resp hresp
      rw [(hfacts.2.1 resp hresp).1, hcr.2.2.2.2.2.2.2.1,
        (getHist_completionPhase_steps _ _).1, allocState_getHist]

end Crash

namespace Crash

/-- Concrete pre-state for the C10 witness: one processed step. -/
def c10wState : EngineState := (processStep defCfg (initState 0) (mkStep 1) 0).1

/-- Concrete input for the C10 witness: step 2 branching from step 1. -/
def c10wIn : CrashStep := { mkStep 2 with branch_from := some 1 }

/-- Witness discharging C10's hypotheses at a concrete input: the branching
step's heap id lands both in the new branch's steps and in the history. -/
theorem C10_witness :
    (processStep defCfg c10wState c10wIn 0).2.isOk = true ∧
    (∃ br, mget (processStep defCfg c10wState c10wIn 0).1.branches "branch-0" = some br ∧
      br.steps = (mget c10wState.branches "branch-0").elim ([] : List Nat) Branch.steps ++
        [c10wState.heap.length]) ∧
    (getHist (processStep defCfg c10wState c10wIn 0).1).steps =
      (getHist c10wState).steps ++ [c10wState.heap.length] ∧
    (∀ resp, (processStep defCfg c10wState c10wIn 0).2 = .ok resp →
      resp.total_steps = (getHist c10wState).steps.length + 1) :=
  C10_branch_step_shared defCfg c10wState
    (calculateBranchDepth (completionPhase (allocState c10wState c10wIn 0) c10wIn) 1).1
    c10wIn 0 1 1 "branch-0"
    (by decide) (by decide) rfl rfl rfl (by decide) rfl (by decide) rfl
    (by decide) (by decide) (Or.inl ⟨by decide, rfl, by decide⟩) (by decide) (by decide)

end Crash

namespace Crash

/-- Membership in an optional-label block followed by the rest of the
missing list. -/
theorem mem_optLabel (a l : String) (c : Bool) (rest : List String) :
    (a ∈ (if c then ([] : List String) else [l]) ++ rest) ↔
      ((c = false ∧ a = l) ∨ a ∈ rest) := by
  cases c <;> simp

/-- Membership in a trailing optional-label block. -/
theorem mem_optLabel2 (a l : String) (c : Bool) :
    (a ∈ (if c then ([] : List String) else [l])) ↔ (c = false ∧ a = l) := by
  cases c <;> simp

/-- C7: when any required field is invalid, `processStep` fails without
touching the state, the error message joins the full missing list, and that
list names exactly the invalid fields: each of the nine labels is present
iff the corresponding source check fails, so every invalid field (not just
the first) is reported. -/
theorem C7_all_invalid_fields_reported (cfg : CrashConfig) (s : EngineState)
    (input : CrashStep) (now : Nat)
    (hinv : (validateRequiredFields input).valid = false) :
    processStep cfg s input now =
      (s, .err ("Missing or invalid required fields: " ++
        ", ".intercalate (validateRequiredFields input).missing) (hintFor cfg)) ∧
    ("step_number (must be positive integer >= 1)" ∈ (validateRequiredFields input).missing ↔
      isPosIntJS input.step_number = false) ∧
    ("estimated_total (must be positive integer >= 1)" ∈ (validateRequiredFields input).missing ↔
      isPosIntJS input.estimated_total = false) ∧
    ("purpose" ∈ (validateRequiredFields input).missing ↔
      isNonEmptyString input.purpose = false) ∧
    ("context" ∈ (validateRequiredFields input).missing ↔
      isNonEmptyString input.context = false) ∧
    ("thought" ∈ (validateRequiredFields input).missing ↔
      isNonEmptyString input.thought = false) ∧
    ("outcome" ∈ (validateRequiredFields input).missing ↔
      isNonEmptyString input.outcome = false) ∧
    ("rationale" ∈ (validateRequiredFields input).missing ↔
      isNonEmptyString input.rationale = false) ∧
    ("next_action" ∈ (validateRequiredFields input).missing ↔
      (match input.next_action with
       | .jstr str => isNonEmptyString (.jstr str) = false
       | .jobjAct _ _ => False
       | _ => True)) ∧
    ("next_action.action" ∈ (validateRequiredFields input).missing ↔
      (match input.next_action with
       | .jobjAct _ a => isNonEmptyString a = false
       | _ => False)) := by
  refine ⟨?_, ?_, ?_, ?_, ?_, ?_, ?_, ?_, ?_, ?_⟩
  · unfold processStep
    dsimp only
    rw [if_pos (by simp [hinv])]
  all_goals
    unfold validateRequiredFields
    dsimp only
    cases input.next_action <;>
      simp only [mem_optLabel, mem_optLabel2] <;> simp

end Crash

namespace Crash

/-- Concrete input for the C7 witness: four invalid fields at once
(zero step number, empty purpose, blank thought, null next_action). -/
def c7wIn : CrashStep :=
  { mkStep 1 with step_number := .jnum 0, purpose := .jstr "",
                  thought := .jstr "   ", next_action := .jnull }

/-- Witness discharging C7's hypothesis at a concrete input: all four
invalid fields are reported in one failure message. -/
theorem C7_witness :
    (validateRequiredFields c7wIn).missing =
      ["step_number (must be positive integer >= 1)", "purpose", "thought", "next_action"] ∧
    processStep defCfg (initState 0) c7wIn 0 =
      (initState 0, .err ("Missing or invalid required fields: " ++
        ", ".intercalate (validateRequiredFields c7wIn).missing) (hintFor defCfg)) ∧
    ("purpose" ∈ (validateRequiredFields c7wIn).missing ↔
      isNonEmptyString c7wIn.purpose = false) :=
  ⟨by decide,
   (C7_all_invalid_fields_reported defCfg (initState 0) c7wIn 0 (by decide)).1,
   (C7_all_invalid_fields_reported defCfg (initState 0) c7wIn 0 (by decide)).2.2.2.1⟩

end Crash

namespace Crash

/-- Pointwise monotonicity of the `completed` flags across the history heap:
`b` keeps every history of `a` (indices are stable, the heap only grows) and
every flag already `true` in `a` is still `true` in `b`. -/
def completedLe (a b : EngineState) : Prop :=
  a.histHeap.length ≤ b.histHeap.length ∧
  ∀ i, i < a.histHeap.length →
    (heapGet a.histHeap i).completed = true → (heapGet b.histHeap i).completed = true

theorem completedLe_refl (a : EngineState) : completedLe a a :=
  ⟨le_refl _, fun _ _ h => h⟩

theorem completedLe_trans {a b c : EngineState}
    (hab : completedLe a b) (hbc : completedLe b c) : completedLe a c :=
  ⟨le_trans hab.1 hbc.1,
   fun i hi h => hbc.2 i (lt_of_lt_of_le hi hab.1) (hab.2 i hi h)⟩

theorem completedLe_of_histHeap_eq {a b : EngineState}
    (h : b.histHeap = a.histHeap) : completedLe a b :=
  ⟨by rw [h], fun i _ hi => by rw [h]; exact hi⟩

theorem completedLe_append1 {a b : EngineState} (x : CrashHistory)
    (h : b.histHeap = a.histHeap ++ [x]) : completedLe a b := by
  refine ⟨by rw [h]; simp, fun i hi hc => ?_⟩
  rw [h, heapGet_append _ _ _ hi]
  exact hc

theorem completedLe_setHist (s : EngineState) (f : CrashHistory → CrashHistory)
    (hf : ∀ h, h.completed = true → (f h).completed = true) :
    completedLe s (setHist s f) := by
  refine ⟨by rw [setHist_histHeap_length], fun i hi hc => ?_⟩
  show (heapGet (heapSet s.histHeap s.activeHist f) i).completed = true
  by_cases hia : s.activeHist = i
  · subst hia
    rw [heapGet_heapSet_self _ _ _ hi]
    exact hf _ hc
  · rw [heapGet_heapSet_ne _ _ _ _ hia]
    exact hc

end Crash


namespace Crash

/-- List-level form of the completed-flag monotonicity. -/
def histMono (a b : List CrashHistory) : Prop :=
  a.length ≤ b.length ∧
  ∀ i, i < a.length →
    (heapGet a i).completed = true → (heapGet b i).completed = true

theorem histMono_trans {a b c : List CrashHistory}
    (hab : histMono a b) (hbc : histMono b c) : histMono a c :=
  ⟨le_trans hab.1 hbc.1,
   fun i hi h => hbc.2 i (lt_of_lt_of_le hi hab.1) (hab.2 i hi h)⟩

theorem histMono_heapSet (l : List CrashHistory) (j : Nat)
    (f : CrashHistory → CrashHistory)
    (hf : ∀ h, h.completed = true → (f h).completed = true) :
    histMono l (heapSet l j f) := by
  refine ⟨by simp [heapSet], fun i hi hc => ?_⟩
  by_cases hij : j = i
  · subst hij
    rw [heapGet_heapSet_self _ _ _ hi]
    exact hf _ hc
  · rw [heapGet_heapSet_ne _ _ _ _ hij]
    exact hc

theorem completedLe_cleanup (cfg : CrashConfig) (s : EngineState) (force : Bool)
    (now : Nat) : completedLe s (cleanupExpiredSessions cfg s force now) := by
  unfold cleanupExpiredSessions
  dsimp only
  split
  · exact completedLe_refl _
  · split
    · exact completedLe_of_histHeap_eq rfl
    · exact completedLe_of_histHeap_eq rfl

theorem completedLe_sessionPhase (cfg : CrashConfig) (s : EngineState)
    (input : CrashStep) (now : Nat) : completedLe s (sessionPhase cfg s input now) := by
  unfold sessionPhase
  dsimp only
  split
  · refine completedLe_trans (completedLe_cleanup cfg s false now) ?_
    repeat' split
    all_goals
      first
        | exact completedLe_refl _
        | exact completedLe_of_histHeap_eq rfl
        | exact completedLe_append1 _ rfl
  · exact completedLe_refl _

theorem completedLe_completionPhase (s : EngineState) (input : CrashStep) :
    completedLe s (completionPhase s input) := by
  unfold completionPhase
  split
  · exact completedLe_setHist _ _ (fun h _ => rfl)
  · split
    · exact completedLe_setHist _ _ (fun h _ => rfl)
    · exact completedLe_refl _

theorem completedLe_handleRevision (cfg : CrashConfig) (s : EngineState)
    (step : CrashStep) : completedLe s (handleRevision cfg s step).1 := by
  unfold handleRevision
  dsimp only
  split
  · exact completedLe_refl _
  · split
    · exact completedLe_refl _
    · split
      · refine completedLe_trans ?_ (completedLe_setHist _ _ (fun h hh => hh))
        exact completedLe_of_histHeap_eq rfl
      · exact completedLe_setHist _ _ (fun h hh => hh)

theorem completedLe_calcDepth (s : EngineState) (q : ℚ) :
    completedLe s (calculateBranchDepth s q).1 := by
  unfold calculateBranchDepth
  split
  · exact completedLe_refl _
  · split
    · exact completedLe_of_histHeap_eq rfl
    · exact completedLe_of_histHeap_eq rfl

theorem completedLe_addStep (s : EngineState) (stepId : Nat) (bid : String) :
    completedLe s (addStepToBranch s stepId bid).1 := by
  unfold addStepToBranch
  split
  · exact completedLe_of_histHeap_eq rfl
  · exact completedLe_refl _

theorem completedLe_handleBranching (cfg : CrashConfig) (s : EngineState)
    (stepId now : Nat) : completedLe s (handleBranching cfg s stepId now).1 := by
  unfold handleBranching
  dsimp only
  split
  · exact completedLe_refl _
  · split
    · exact completedLe_refl _
    · split
      · split
        · exact completedLe_calcDepth s _
        · refine completedLe_trans ?_ (completedLe_addStep _ _ _)
          refine completedLe_trans ?_ (completedLe_setHist _ _ (fun h hh => hh))
          refine completedLe_trans
            (completedLe_calcDepth s ((heapGet s.heap stepId).branch_from.getD 0)) ?_
          exact completedLe_of_histHeap_eq rfl
      · exact completedLe_addStep _ _ _

theorem completedLe_preTrim (s : EngineState) (input : CrashStep)
    (stepId now : Nat) : completedLe s (preTrimState s input stepId now) := by
  show histMono s.histHeap
    (heapSet (heapSet (heapSet s.histHeap s.activeHist
        (fun h => { h with metadata := { h.metadata with tools_used :=
          (extractToolsUsed (heapGet s.heap stepId)).foldl sInsert s.toolsUsedSet } }))
      s.activeHist (fun h => { h with steps := h.steps ++ [stepId] }))
    s.activeHist (fun h => { h with metadata := { h.metadata with
      total_duration_ms := now - s.startTime }, updated_at := now }))
  refine histMono_trans (histMono_trans (histMono_heapSet _ _ _ ?_)
    (histMono_heapSet _ _ _ ?_)) (histMono_heapSet _ _ _ ?_) <;>
    exact fun h hh => hh

theorem completedLe_trimHistory (cfg : CrashConfig) (s : EngineState) :
    completedLe s (trimHistory cfg s) := by
  unfold trimHistory
  dsimp only
  split
  · exact completedLe_refl _
  · show histMono s.histHeap (heapSet s.histHeap s.activeHist
      (fun h => { h with steps := if cfg.system.maxHistorySize = 0 then h.steps else h.steps.drop (h.steps.length - cfg.system.maxHistorySize) }))
    refine histMono_heapSet _ _ _ ?_
    exact fun h hh => hh

theorem completedLe_successTail (cfg : CrashConfig) (s : EngineState)
    (input : CrashStep) (stepId now : Nat) :
    completedLe s (successTail cfg s input stepId now).1 := by
  unfold successTail
  dsimp only
  exact completedLe_trans (completedLe_preTrim s input stepId now)
    (completedLe_trimHistory cfg _)

end Crash

namespace Crash

theorem handleRevision_activeHist (cfg : CrashConfig) (s : EngineState)
    (step : CrashStep) : (handleRevision cfg s step).1.activeHist = s.activeHist := by
  unfold handleRevision
  dsimp only
  split
  · rfl
  · split
    · rfl
    · split <;> rfl

theorem addStep_activeHist (s : EngineState) (stepId : Nat) (bid : String) :
    (addStepToBranch s stepId bid).1.activeHist = s.activeHist := by
  unfold addStepToBranch
  split <;> rfl

theorem handleBranching_activeHist (cfg : CrashConfig) (s : EngineState)
    (stepId now : Nat) : (handleBranching cfg s stepId now).1.activeHist = s.activeHist := by
  unfold handleBranching
  dsimp only
  split
  · rfl
  · split
    · rfl
    · split
      · split
        · exact (calcDepth_frame s ((heapGet s.heap stepId).branch_from.getD 0)).2.2.2.1
        · rw [addStep_activeHist, setHist_activeHist]
          exact (calcDepth_frame s ((heapGet s.heap stepId).branch_from.getD 0)).2.2.2.1
      · exact addStep_activeHist _ _ _

theorem successTail_activeHist (cfg : CrashConfig) (s : EngineState)
    (input : CrashStep) (stepId now : Nat) :
    (successTail cfg s input stepId now).1.activeHist = s.activeHist := by
  unfold successTail trimHistory preTrimState
  dsimp only
  split <;> rfl

theorem completionPhase_sets (st : EngineState) (input : CrashStep)
    (hact : st.activeHist < st.histHeap.length)
    (hfp : input.is_final_step = some true ∨ hasCompletionPhrase input.thought.asStr = true) :
    (getHist (completionPhase st input)).completed = true := by
  unfold completionPhase
  by_cases hA : input.is_final_step = some true
  · rw [if_pos hA, getHist_setHist _ _ hact]
  · rcases hfp with hA' | hB
    · exact absurd hA' hA
    · rw [if_neg hA, if_pos hB, getHist_setHist _ _ hact]

end Crash

namespace Crash

/-- C9: (i) the `completed` flags of all histories are monotonic under any
`processStep` call — indices are stable and no flag already `true` is ever
reset; (ii) a successful session-free call whose step has
`is_final_step = true` or whose thought contains a completion phrase leaves
the active history's `completed` flag `true`; (iii) only an explicit
history clear yields a fresh active history with `completed = false`. -/
theorem C9_completed_monotonic (cfg : CrashConfig) (s : EngineState)
    (input : CrashStep) (now : Nat) :
    completedLe s (processStep cfg s input now).1 ∧
    ((input.is_final_step = some true ∨ hasCompletionPhrase input.thought.asStr = true) →
      input.session_id = none →
      s.activeHist < s.histHeap.length →
      (processStep cfg s input now).2.isOk = true →
      (getHist (processStep cfg s input now).1).completed = true) ∧
    (getHist (clearHistory s now)).completed = false := by
  refine ⟨?_, ?_, ?_⟩
  · unfold processStep
    dsimp only
    split
    · exact completedLe_refl _
    · split
      · exact completedLe_refl _
      · split
        · exact completedLe_refl _
        · split
          · exact completedLe_refl _
          · split
            · exact completedLe_refl _
            · split
              · refine completedLe_trans ?_ (completedLe_sessionPhase cfg _ input now)
                exact completedLe_of_histHeap_eq rfl
              · split
                · refine completedLe_trans ?_ (completedLe_handleRevision cfg _ _)
                  refine completedLe_trans ?_ (completedLe_completionPhase _ input)
                  refine completedLe_trans ?_ (completedLe_sessionPhase cfg _ input now)
                  exact completedLe_of_histHeap_eq rfl
                · split
                  · refine completedLe_trans ?_ (completedLe_handleBranching cfg _ _ now)
                    refine completedLe_trans ?_ (completedLe_handleRevision cfg _ _)
                    refine completedLe_trans ?_ (completedLe_completionPhase _ input)
                    refine completedLe_trans ?_ (completedLe_sessionPhase cfg _ input now)
                    exact completedLe_of_histHeap_eq rfl
                  · refine completedLe_trans ?_ (completedLe_successTail cfg _ input _ now)
                    refine completedLe_trans ?_ (completedLe_handleBranching cfg _ _ now)
                    refine completedLe_trans ?_ (completedLe_handleRevision cfg _ _)
                    refine completedLe_trans ?_ (completedLe_completionPhase _ input)
                    refine completedLe_trans ?_ (completedLe_sessionPhase cfg _ input now)
                    exact completedLe_of_histHeap_eq rfl
  · intro hfp hsid hact hok
    unfold processStep at hok ⊢
    dsimp only at hok ⊢
    rw [sessionPhase_noop cfg _ input now (by simp [hsid, truthyStr])] at hok ⊢
    split at hok
    next h1 => simp [StepResult.isOk] at hok
    next h1 =>
      split at hok
      next h2 => simp [StepResult.isOk] at hok
      next h2 =>
        split at hok
        next h3 => simp [StepResult.isOk] at hok
        next h3 =>
          split at hok
          next h4 => simp [StepResult.isOk] at hok
          next h4 =>
            split at hok
            next h5 => simp [StepResult.isOk] at hok
            next h5 =>
              split at hok
              next h6 => simp [StepResult.isOk] at hok
              next h6 =>
                split at hok
                next h7 => simp [StepResult.isOk] at hok
                next h7 =>
                  split at hok
                  next h8 => simp [StepResult.isOk] at hok
                  next h8 =>
                    rw [if_neg h1, if_neg h2, if_neg h3, if_neg h4, if_neg h5,
                        if_neg h6, if_neg h7, if_neg h8]
                    have hCPact : (completionPhase (allocState s input now) input).activeHist <
                        (completionPhase (allocState s input now) input).histHeap.length := by
                      rw [completionPhase_activeHist, completionPhase_histLen]
                      exact hact
                    have hCP := completionPhase_sets (allocState s input now) input hact hfp
                    have hCP2 : (heapGet (completionPhase (allocState s input now) input).histHeap
                        (allocState s input now).activeHist).completed = true := by
                      rw [← completionPhase_activeHist (allocState s input now) input]
                      exact hCP
                    have hLe := completedLe_trans (completedLe_trans
                      (completedLe_handleRevision cfg
                        (completionPhase (allocState s input now) input)
                        (heapGet (completionPhase (allocState s input now) input).heap
                          s.heap.length))
                      (completedLe_handleBranching cfg _ s.heap.length now))
                      (completedLe_successTail cfg _ input s.heap.length now)
                    unfold getHist
                    rw [successTail_activeHist, handleBranching_activeHist,
                        handleRevision_activeHist, completionPhase_activeHist]
                    refine hLe.2 _ ?_ hCP2
                    rw [completionPhase_histLen]
                    exact hact
  · show (heapGet (s.histHeap ++ [createNewHistory now]) s.histHeap.length).completed = false
    rw [heapGet_append_self]
    rfl

end Crash

namespace Crash

/-- Concrete input for the C9 witness: a final step. -/
def c9wIn : CrashStep := { mkStep 1 with is_final_step := some true }

/-- Witness discharging C9's hypotheses at a concrete input: a successful
final step flips the active history's completed flag to true. -/
theorem C9_witness :
    (getHist (processStep defCfg (initState 0) c9wIn 0).1).completed = true :=
  (C9_completed_monotonic defCfg (initState 0) c9wIn 0).2.1
    (Or.inl rfl) rfl (by decide) (by decide)

end Crash

namespace Crash

/-! ### C3 — the nested branch-from-branch chain scenario -/

/-- Distinct branch ids for the chain (injective by length). -/
def natKey (c : Nat) : String := String.mk (List.replicate c 'b')

/-- The configuration of the C3 scenario: defaults with `maxBranchDepth = K`
and `maxHistorySize = M`. -/
def c3cfg (K M : Nat) : CrashConfig :=
  { defCfg with system := { maxHistorySize := M, maxBranchDepth := K, sessionTimeout := 60 } }

/-- The `c`-th branching call of the chain: step number `c + 1` branching
from step number `c` under the fresh id `natKey c`. -/
def chainStep (c : Nat) : CrashStep :=
  { mkStep ((c : ℚ) + 1) with branch_from := some (c : ℚ), branch_id := some (natKey c) }

/-- The engine state after the set-up step and the first `c` branching
calls. -/
def chainState (cfg : CrashConfig) : Nat → EngineState
  | 0 => (processStep cfg (initState 0) (mkStep 1) 0).1
  | c + 1 => (processStep cfg (chainState cfg c) (chainStep (c + 1)) 0).1

/-- The heap contents after `c` chain calls. -/
def chainHeap : Nat → List CrashStep
  | 0 => [{ mkStep 1 with timestamp := some 0, duration_ms := some 0 }]
  | c + 1 => chainHeap c ++
      [{ chainStep (c + 1) with timestamp := some 0, branch_id := some (natKey (c + 1)), duration_ms := some 0 }]

/-- The branch created by the `j`-th chain call. -/
def chainBranch (j : Nat) : Branch :=
  { id := natKey j, name := "Alternative " ++ toString j, from_step := (j : ℚ),
    steps := [j], status := "active", created_at := 0, depth := j }

/-- The branch registry after `c` chain calls. -/
def chainBranches : Nat → List (String × Branch)
  | 0 => []
  | c + 1 => chainBranches c ++ [(natKey (c + 1), chainBranch (c + 1))]

/-- The known step numbers after `c` chain calls. -/
def chainNums : Nat → List ℚ
  | 0 => [1]
  | c + 1 => chainNums c ++ [((c + 1 : Nat) : ℚ) + 1]

theorem chainHeap_length (c : Nat) : (chainHeap c).length = c + 1 := by
  induction c with
  | zero => rfl
  | succ c ih => simp [chainHeap, ih]

theorem chainBranches_length (c : Nat) : (chainBranches c).length = c := by
  induction c with
  | zero => rfl
  | succ c ih => simp [chainBranches, ih]

theorem natKey_inj {a b : Nat} (h : natKey a = natKey b) : a = b := by
  have := congrArg (fun s => s.data.length) h
  simpa [natKey] using this

theorem natKey_ne_empty (c : Nat) : natKey (c + 1) ≠ "" := by
  intro h
  have := congrArg (fun s => s.data.length) h
  simp [natKey] at this

theorem mget_append {κ α : Type} [DecidableEq κ] (l1 l2 : List (κ × α)) (k : κ) :
    mget (l1 ++ l2) k = match mget l1 k with
      | some v => some v
      | none => mget l2 k := by
  induction l1 with
  | nil => simp [mget]
  | cons kv rest ih =>
    by_cases hk : kv.1 = k
    · simp [mget, hk]
    · simp [mget, hk, ih]

theorem chainBranches_mget_gt (c j : Nat) (h : c < j) :
    mget (chainBranches c) (natKey j) = none := by
  induction c with
  | zero => rfl
  | succ c ih =>
    rw [chainBranches, mget_append, ih (by omega)]
    show (if natKey (c + 1) = natKey j then some (chainBranch (c + 1))
      else mget [] (natKey j)) = none
    rw [if_neg (fun hc => absurd (natKey_inj hc) (by omega))]
    rfl

theorem chainBranches_mget_le (c j : Nat) (h1 : 1 ≤ j) (h2 : j ≤ c) :
    mget (chainBranches c) (natKey j) = some (chainBranch j) := by
  induction c with
  | zero => omega
  | succ c ih =>
    rw [chainBranches, mget_append]
    by_cases hj : j ≤ c
    · rw [ih hj]
    · have hjc : j = c + 1 := by omega
      rw [chainBranches_mget_gt c j (by omega)]
      show (if natKey (c + 1) = natKey j then some (chainBranch (c + 1))
        else mget [] (natKey j)) = some (chainBranch j)
      rw [if_pos (by rw [hjc]), hjc]

theorem chainBranches_depth_le (c : Nat) :
    ∀ p ∈ chainBranches c, p.2.depth ≤ c := by
  induction c with
  | zero => intro p hp; simp [chainBranches] at hp
  | succ c ih =>
    intro p hp
    rw [chainBranches, List.mem_append] at hp
    rcases hp with hp | hp
    · exact le_trans (ih p hp) (by omega)
    · simp at hp
      rw [hp]
      exact le_refl _

end Crash

namespace Crash

theorem chainNums_le (c : Nat) : ∀ q ∈ chainNums c, q ≤ (c : ℚ) + 1 := by
  induction c with
  | zero =>
    intro q hq
    simp [chainNums] at hq
    simp [hq]
  | succ c ih =>
    intro q hq
    rw [chainNums, List.mem_append] at hq
    rcases hq with hq | hq
    · refine le_trans (ih q hq) ?_
      have : (c : ℚ) ≤ ((c + 1 : Nat) : ℚ) := by push_cast; linarith
      linarith
    · simp at hq
      rw [hq]
      push_cast
      linarith

theorem chainNums_mem_succ (c : Nat) : ((c + 1 : Nat) : ℚ) ∈ chainNums c := by
  cases c with
  | zero => simp [chainNums]
  | succ c =>
    rw [chainNums, List.mem_append]
    right
    have : ((c + 1 + 1 : Nat) : ℚ) = ((c + 1 : Nat) : ℚ) + 1 := by push_cast; ring
    simp [this]

theorem chainNums_not_mem (c : Nat) : ((c + 1 : Nat) : ℚ) + 1 ∉ chainNums c := by
  intro h
  have := chainNums_le c _ h
  have hc : ((c : ℚ)) + 1 + 1 ≤ (c : ℚ) + 1 := by
    calc ((c : ℚ)) + 1 + 1 = ((c + 1 : Nat) : ℚ) + 1 := by push_cast; ring
    _ ≤ (c : ℚ) + 1 := this
  linarith

theorem sInsert_chainNums (c : Nat) :
    sInsert (chainNums c) (((c + 1 : Nat) : ℚ) + 1) = chainNums (c + 1) := by
  rw [sInsert, if_neg (chainNums_not_mem c)]
  rfl

theorem chainHeap_get (c j : Nat) (hj : j ≤ c) :
    (heapGet (chainHeap c) j).step_number.asNum = (j : ℚ) + 1 := by
  induction c with
  | zero =>
    have : j = 0 := by omega
    rw [this]
    show ((JSVal.jnum (1 : ℚ)).asNum) = ((0 : Nat) : ℚ) + 1
    norm_num [JSVal.asNum]
  | succ c ih =>
    by_cases hjc : j ≤ c
    · rw [chainHeap, heapGet_append _ _ _ (by rw [chainHeap_length]; omega)]
      exact ih hjc
    · have hj1 : j = c + 1 := by omega
      subst hj1
      have key := heapGet_append_self (chainHeap c)
        ({ chainStep (c + 1) with timestamp := some 0, branch_id := some (natKey (c + 1)), duration_ms := some 0 })
      rw [chainHeap_length] at key
      rw [show heapGet (chainHeap (c + 1)) (c + 1) = ({ chainStep (c + 1) with timestamp := some 0, branch_id := some (natKey (c + 1)), duration_ms := some 0 }) from key]
      rfl

end Crash

namespace Crash

theorem findContainingBranch_append (l1 l2 : List (String × Branch))
    (H : List CrashStep) (q : ℚ)
    (h : findContainingBranch l1 H q = none) :
    findContainingBranch (l1 ++ l2) H q = findContainingBranch l2 H q := by
  induction l1 with
  | nil => rfl
  | cons kv rest ih =>
    rw [findContainingBranch] at h
    rw [List.cons_append, findContainingBranch]
    split at h
    · exact absurd h (by simp)
    · rw [if_neg (by assumption)]
      exact ih h

theorem chainFind_none (c : Nat) (H : List CrashStep)
    (hH : ∀ j, 1 ≤ j → j ≤ c → (heapGet H j).step_number.asNum = (j : ℚ) + 1)
    (q : ℚ) (hq : ∀ j, 1 ≤ j → j ≤ c → q ≠ (j : ℚ) + 1) :
    findContainingBranch (chainBranches c) H q = none := by
  induction c with
  | zero => rfl
  | succ c ih =>
    rw [chainBranches, findContainingBranch_append _ _ _ _
      (ih (fun j h1 h2 => hH j h1 (by omega)) (fun j h1 h2 => hq j h1 (by omega)))]
    rw [findContainingBranch]
    rw [if_neg ?_]
    · rfl
    show ¬ ((chainBranch (c + 1)).steps.any
      (fun id => decide ((heapGet H id).step_number.asNum = q)) = true)
    have hval := hH (c + 1) (by omega) (by omega)
    simp [chainBranch, hval]
    exact fun hc => hq (c + 1) (by omega) (by omega) (by rw [← hc]; push_cast; ring)

theorem chainFind_found (c : Nat) (H : List CrashStep)
    (hH : ∀ j, 1 ≤ j → j ≤ c → (heapGet H j).step_number.asNum = (j : ℚ) + 1)
    (hc : 1 ≤ c) :
    findContainingBranch (chainBranches c) H ((c + 1 : Nat) : ℚ) =
      some (chainBranch c) := by
  cases c with
  | zero => omega
  | succ c =>
    rw [chainBranches, findContainingBranch_append _ _ _ _
      (chainFind_none c H (fun j h1 h2 => hH j h1 (by omega)) _
        (fun j h1 h2 heq => by
          have : ((c + 1 + 1 : Nat) : ℚ) = ((j + 1 : Nat) : ℚ) := by push_cast at heq ⊢; linarith
          have := Nat.cast_injective this
          omega))]
    have hval := hH (c + 1) (by omega) (by omega)
    have hany : ((chainBranch (c + 1)).steps.any
        (fun id => decide ((heapGet H id).step_number.asNum = ((c + 1 + 1 : Nat) : ℚ)))) = true := by
      simp only [chainBranch, List.any_cons, List.any_nil, Bool.or_false, decide_eq_true_eq]
      rw [hval]
      push_cast
      ring
    rw [findContainingBranch, if_pos hany]

end Crash

namespace Crash

theorem heapSet_length {α : Type} [Inhabited α] (l : List α) (i : Nat) (f : α → α) :
    (heapSet l i f).length = l.length := by
  simp [heapSet]

theorem heapSet_append_self {α : Type} [Inhabited α] (l : List α) (x : α) (f : α → α) :
    heapSet (l ++ [x]) l.length f = l ++ [f x] := by
  unfold heapSet
  rw [heapGet_append_self]
  induction l with
  | nil => rfl
  | cons y ys ih => simp [List.set, ih]

/-- When the append stays within capacity the success tail's state is just
the pre-trim state. -/
theorem successTail_state_eq (cfg : CrashConfig) (s : EngineState)
    (input : CrashStep) (stepId now : Nat)
    (hact : s.activeHist < s.histHeap.length)
    (hcap : (getHist s).steps.length + 1 ≤ cfg.system.maxHistorySize) :
    (successTail cfg s input stepId now).1 = preTrimState s input stepId now := by
  unfold successTail
  dsimp only
  rw [trimHistory_noop]
  rw [preTrim_getHist s input stepId now hact]
  simpa using hcap

theorem preTrim_heap (s : EngineState) (input : CrashStep) (stepId now : Nat) :
    (preTrimState s input stepId now).heap =
      heapSet s.heap stepId (fun st => { st with duration_ms := some 0 }) := rfl

theorem preTrim_branchDepthCache (s : EngineState) (input : CrashStep)
    (stepId now : Nat) :
    (preTrimState s input stepId now).branchDepthCache = s.branchDepthCache := rfl

/-- The completion phase is inert on every chain input (no final flag, no
completion phrase in the fixed thought "t"). -/
theorem completionPhase_noop_chain (s : EngineState) (j : Nat) :
    completionPhase s (chainStep j) = s := by
  unfold completionPhase
  rw [if_neg (by simp [chainStep, mkStep]), if_neg (by simp [chainStep, mkStep]; decide)]

theorem completionPhase_noop_mk1 (s : EngineState) :
    completionPhase s (mkStep 1) = s := by
  unfold completionPhase
  rw [if_neg (by simp [mkStep]), if_neg (by simp [mkStep]; decide)]

end Crash

namespace Crash

theorem isPosIntJS_chain (j : Nat) : isPosIntJS (chainStep j).step_number = true := by
  show (decide ((1 : ℚ) ≤ (j : ℚ) + 1) && decide (((j : ℚ) + 1).den = 1)) = true
  rw [Bool.and_eq_true, decide_eq_true_eq, decide_eq_true_eq]
  constructor
  · have h0 : (0 : ℚ) ≤ (j : ℚ) := Nat.cast_nonneg j
    linarith
  · rw [show ((j : ℚ) + 1) = ((j + 1 : Nat) : ℚ) from by push_cast; ring]
    exact Rat.den_natCast _

theorem chainStep_fv (j : Nat) : (validateRequiredFields (chainStep j)).valid = true := by
  unfold validateRequiredFields
  dsimp only
  rw [isPosIntJS_chain]
  rw [show (chainStep j).estimated_total = JSVal.jnum 3 from rfl,
      show (chainStep j).purpose = JSVal.jstr "analysis" from rfl,
      show (chainStep j).context = JSVal.jstr "c" from rfl,
      show (chainStep j).thought = JSVal.jstr "t" from rfl,
      show (chainStep j).outcome = JSVal.jstr "o" from rfl,
      show (chainStep j).rationale = JSVal.jstr "r" from rfl,
      show (chainStep j).next_action = JSVal.jstr "a" from rfl]
  decide

theorem chainStep_cv (j : Nat) : (validateConfidence (chainStep j)).valid = true := rfl

end Crash

namespace Crash

/-- Fresh-branch creation, as a full state equation: the step is tagged, the
branch is registered, the counter is bumped and the depth cache is cleared;
nothing else moves. -/
theorem handleBranching_create_state (cfg : CrashConfig) (st : EngineState)
    (stepId now : Nat) (f : ℚ) (bc : List (ℚ × Nat)) (d : Nat) (bid : String)
    (hbf : (heapGet st.heap stepId).branch_from = some f) (hf0 : f ≠ 0)
    (hen : cfg.features.enableBranching = true)
    (hmem : f ∈ st.stepNumbers)
    (hbid : orElseStr (heapGet st.heap stepId).branch_id ("branch-" ++ toString now) = bid)
    (hnew : mget st.branches bid = none)
    (hcd : calculateBranchDepth st f = ({ st with branchDepthCache := bc }, d))
    (hdepth : d ≤ cfg.system.maxBranchDepth) :
    handleBranching cfg st stepId now =
      ({ st with
          heap := (heapSet st.heap stepId (fun s => { s with branch_id := some bid })),
          histHeap := (heapSet st.histHeap st.activeHist (fun h => { h with metadata := { h.metadata with branches_created := h.metadata.branches_created + 1 } })),
          branches := (mset st.branches bid { id := bid, name := orElseStr (heapGet st.heap stepId).branch_name ("Alternative " ++ toString (st.branches.length + 1)), from_step := f, steps := [stepId], status := "active", created_at := now, depth := d }),
          branchDepthCache := [] },
       { success := true, error := none }) := by
  have ht : truthyNum (heapGet st.heap stepId).branch_from = true := by
    rw [hbf]
    simp [truthyNum, hf0]
  unfold handleBranching
  dsimp only
  rw [ht, hen]
  rw [if_neg (by simp)]
  rw [hbf]
  simp only [Option.getD_some]
  rw [if_neg (by simpa using hmem)]
  rw [hbid, hnew]
  dsimp only
  rw [hcd]
  dsimp only
  rw [if_neg (not_lt.mpr hdepth)]
  unfold addStepToBranch
  rw [setHist_branches]
  dsimp only
  rw [mget_mset_self]
  dsimp only
  rw [mset_mset_self]
  rfl

/-- Depth-limit rejection, as a full state equation: only the memoised depth
cache moves, no branch is registered, and the fatal message names both the
computed and the maximum depth. -/
theorem handleBranching_depthErr (cfg : CrashConfig) (st : EngineState)
    (stepId now : Nat) (f : ℚ) (bc : List (ℚ × Nat)) (d : Nat) (bid : String)
    (hbf : (heapGet st.heap stepId).branch_from = some f) (hf0 : f ≠ 0)
    (hen : cfg.features.enableBranching = true)
    (hmem : f ∈ st.stepNumbers)
    (hbid : orElseStr (heapGet st.heap stepId).branch_id ("branch-" ++ toString now) = bid)
    (hnew : mget st.branches bid = none)
    (hcd : calculateBranchDepth st f = ({ st with branchDepthCache := bc }, d))
    (hdepth : cfg.system.maxBranchDepth < d) :
    handleBranching cfg st stepId now =
      ({ st with branchDepthCache := bc },
       { success := false,
         error := some ("Branch depth " ++ toString d ++ " exceeds maximum "
           ++ toString cfg.system.maxBranchDepth ++ ". Max allowed: "
           ++ toString cfg.system.maxBranchDepth) }) := by
  have ht : truthyNum (heapGet st.heap stepId).branch_from = true := by
    rw [hbf]
    simp [truthyNum, hf0]
  unfold handleBranching
  dsimp only
  rw [ht, hen]
  rw [if_neg (by simp)]
  rw [hbf]
  simp only [Option.getD_some]
  rw [if_neg (by simpa using hmem)]
  rw [hbid, hnew]
  dsimp only
  rw [hcd]
  dsimp only
  rw [if_pos hdepth]

/-- When branch handling fails, `processStep` (past the gates) returns the
error with the strict-mode-dependent hint and the branching-phase state. -/
theorem processStep_branchErr (cfg : CrashConfig) (s : EngineState) (input : CrashStep)
    (now : Nat) (e : String)
    (hfv : (validateRequiredFields input).valid = true)
    (hcv : (validateConfidence input).valid = true)
    (hsm : cfg.validation.strictMode = false)
    (hsid : input.session_id = none)
    (hdeps : input.dependencies = none)
    (hrevN : truthyNum input.revises_step = false)
    (hbv : (handleBranching cfg (completionPhase (allocState s input now) input)
      s.heap.length now).2 = { success := false, error := some e }) :
    processStep cfg s input now =
      ((handleBranching cfg (completionPhase (allocState s input now) input)
        s.heap.length now).1, .err e (hintFor cfg)) := by
  rw [processStep_afterDeps cfg s input now hfv hcv hsm hsid hdeps]
  rw [handleRevision_noop cfg _ ({ input with timestamp := some now })
    (by rw [show truthyNum ({ input with timestamp := some now } : CrashStep).revises_step
        = truthyNum input.revises_step from rfl, hrevN]; rfl)]
  dsimp only
  rw [hbv]
  simp

end Crash

namespace Crash

theorem preTrim_branches_eq (s : EngineState) (input : CrashStep) (stepId now : Nat) :
    (preTrimState s input stepId now).branches = s.branches := rfl

theorem preTrim_activeHist_eq (s : EngineState) (input : CrashStep) (stepId now : Nat) :
    (preTrimState s input stepId now).activeHist = s.activeHist := rfl

theorem preTrim_stepNumbers_eq (s : EngineState) (input : CrashStep) (stepId now : Nat) :
    (preTrimState s input stepId now).stepNumbers =
      sInsert s.stepNumbers input.step_number.asNum := rfl

theorem addStep_getHist (s : EngineState) (stepId : Nat) (bid : String) :
    getHist (addStepToBranch s stepId bid).1 = getHist s := by
  unfold addStepToBranch
  split <;> rfl

theorem addStep_histHeap (s : EngineState) (stepId : Nat) (bid : String) :
    (addStepToBranch s stepId bid).1.histHeap = s.histHeap := by
  unfold addStepToBranch
  split <;> rfl

theorem calcDepth_getHist (s : EngineState) (q : ℚ) :
    getHist (calculateBranchDepth s q).1 = getHist s := by
  unfold calculateBranchDepth
  split
  · rfl
  · split <;> rfl

theorem calcDepth_histHeap (s : EngineState) (q : ℚ) :
    (calculateBranchDepth s q).1.histHeap = s.histHeap := by
  unfold calculateBranchDepth
  split
  · rfl
  · split <;> rfl

theorem handleBranching_histLen (cfg : CrashConfig) (s : EngineState)
    (stepId now : Nat) :
    (handleBranching cfg s stepId now).1.histHeap.length = s.histHeap.length := by
  unfold handleBranching
  dsimp only
  split
  · rfl
  · split
    · rfl
    · split
      · split
        · rw [calcDepth_histHeap]
        · rw [addStep_histHeap]
          rw [setHist_histHeap_length]
          show (calculateBranchDepth s ((heapGet s.heap stepId).branch_from.getD 0)).1.histHeap.length = _
          rw [calcDepth_histHeap]
      · rw [addStep_histHeap]

theorem handleBranching_getHist_steps (cfg : CrashConfig) (s : EngineState)
    (stepId now : Nat) :
    (getHist (handleBranching cfg s stepId now).1).steps = (getHist s).steps := by
  unfold handleBranching
  dsimp only
  split
  · rfl
  · split
    · rfl
    · split
      · split
        · rw [calcDepth_getHist]
        · rw [addStep_getHist]
          refine Eq.trans (getHist_setHist_proj _ _ CrashHistory.steps ?_) ?_
          · exact fun h => rfl
          · exact congrArg CrashHistory.steps
              (calcDepth_getHist s ((heapGet s.heap stepId).branch_from.getD 0))
      · rw [addStep_getHist]

end Crash

namespace Crash

/-- The chain invariant: after the set-up step and `c ≤ K` branching calls
the state is fully characterised, and every call so far succeeded. -/
theorem chain_inv (K M : Nat) (hK : 1 ≤ K) (hM : K + 2 ≤ M) :
    ∀ c, c ≤ K →
      (chainState (c3cfg K M) c).heap = chainHeap c ∧
      (chainState (c3cfg K M) c).branches = chainBranches c ∧
      (chainState (c3cfg K M) c).stepNumbers = chainNums c ∧
      (chainState (c3cfg K M) c).branchDepthCache = [] ∧
      (chainState (c3cfg K M) c).activeHist = 0 ∧
      (chainState (c3cfg K M) c).histHeap.length = 1 ∧
      (getHist (chainState (c3cfg K M) c)).steps.length = c + 1 ∧
      (1 ≤ c →
        (processStep (c3cfg K M) (chainState (c3cfg K M) (c - 1)) (chainStep c) 0).2.isOk
          = true) := by
  intro c
  induction c with
  | zero =>
    intro _
    have hplain := processStep_plain (c3cfg K M) (initState 0) (mkStep 1) 0
      (by decide) rfl rfl rfl rfl (Or.inl rfl) (Or.inl rfl)
    have hst0 : chainState (c3cfg K M) 0 =
        preTrimState (allocState (initState 0) (mkStep 1) 0) (mkStep 1) 0 0 := by
      show (processStep (c3cfg K M) (initState 0) (mkStep 1) 0).1 = _
      rw [hplain, completionPhase_noop_mk1]
      exact successTail_state_eq (c3cfg K M) (allocState (initState 0) (mkStep 1) 0)
        (mkStep 1) 0 0 (by decide) (by show 0 + 1 ≤ M; omega)
    rw [hst0]
    refine ⟨by decide, by decide, by decide, by decide, by decide, by decide, by decide, ?_⟩
    intro h
    omega
  | succ c ih =>
    intro hcK
    obtain ⟨ihheap, ihbr, ihnums, ihcache, ihact, ihlen, ihsteps, _⟩ := ih (by omega)
    have hfv := chainStep_fv (c + 1)
    have hcv := chainStep_cv (c + 1)
    have hsm : (c3cfg K M).validation.strictMode = false := rfl
    have hsid : (chainStep (c + 1)).session_id = none := rfl
    have hdeps : (chainStep (c + 1)).dependencies = none := rfl
    have hrevN : truthyNum (chainStep (c + 1)).revises_step = false := rfl
    have hg : heapGet ((chainState (c3cfg K M) c).heap ++ [{ chainStep (c + 1) with timestamp := some 0 }]) (chainState (c3cfg K M) c).heap.length =
        { chainStep (c + 1) with timestamp := some 0 } := heapGet_append_self _ _
    have hbf : (heapGet (allocState (chainState (c3cfg K M) c) (chainStep (c + 1)) 0).heap (chainState (c3cfg K M) c).heap.length).branch_from = some ((c + 1 : Nat) : ℚ) := by
      rw [allocState_heap, hg]
      rfl
    have hf0 : ((c + 1 : Nat) : ℚ) ≠ 0 := Nat.cast_ne_zero.mpr (by omega)
    have hen : (c3cfg K M).features.enableBranching = true := rfl
    have hmem : ((c + 1 : Nat) : ℚ) ∈ (allocState (chainState (c3cfg K M) c) (chainStep (c + 1)) 0).stepNumbers := by
      show ((c + 1 : Nat) : ℚ) ∈ (chainState (c3cfg K M) c).stepNumbers
      rw [ihnums]
      exact chainNums_mem_succ c
    have hbid : orElseStr (heapGet (allocState (chainState (c3cfg K M) c) (chainStep (c + 1)) 0).heap (chainState (c3cfg K M) c).heap.length).branch_id ("branch-" ++ toString 0) =
        natKey (c + 1) := by
      rw [allocState_heap, hg]
      show orElseStr (some (natKey (c + 1))) _ = natKey (c + 1)
      simp [orElseStr, natKey_ne_empty c]
    have hnew : mget (allocState (chainState (c3cfg K M) c) (chainStep (c + 1)) 0).branches (natKey (c + 1)) = none := by
      show mget (chainState (c3cfg K M) c).branches (natKey (c + 1)) = none
      rw [ihbr]
      exact chainBranches_mget_gt c (c + 1) (by omega)
    have hcacheA : (allocState (chainState (c3cfg K M) c) (chainStep (c + 1)) 0).branchDepthCache = [] := ihcache
    have hbrA : (allocState (chainState (c3cfg K M) c) (chainStep (c + 1)) 0).branches = chainBranches c := ihbr
    have hH : ∀ j, 1 ≤ j → j ≤ c →
        (heapGet (allocState (chainState (c3cfg K M) c) (chainStep (c + 1)) 0).heap j).step_number.asNum = (j : ℚ) + 1 := by
      intro j h1 h2
      rw [allocState_heap, ihheap, heapGet_append _ _ _ (by rw [chainHeap_length]; omega)]
      exact chainHeap_get c j h2
    have hcache0 : mget (allocState (chainState (c3cfg K M) c) (chainStep (c + 1)) 0).branchDepthCache ((c + 1 : Nat) : ℚ) = none := by
      rw [hcacheA]
      rfl
    have hcd : calculateBranchDepth (allocState (chainState (c3cfg K M) c) (chainStep (c + 1)) 0) ((c + 1 : Nat) : ℚ) =
        ({ allocState (chainState (c3cfg K M) c) (chainStep (c + 1)) 0 with branchDepthCache := [(((c + 1 : Nat) : ℚ), c + 1)] }, c + 1) := by
      unfold calculateBranchDepth
      rw [hcache0]
      dsimp only
      rcases Nat.eq_zero_or_pos c with hc0 | hc1
      · subst hc0
        rw [hbrA]
        rw [show findContainingBranch (chainBranches 0)
          (allocState (chainState (c3cfg K M) 0) (chainStep (0 + 1)) 0).heap
          ((0 + 1 : Nat) : ℚ) = none from rfl]
        dsimp only
        rw [hcacheA]
        rfl
      · rw [hbrA, chainFind_found c _ hH hc1]
        dsimp only
        rw [hcacheA]
        rfl
    have hdepth : c + 1 ≤ (c3cfg K M).system.maxBranchDepth := hcK
    have hbig := handleBranching_create_state (c3cfg K M) (allocState (chainState (c3cfg K M) c) (chainStep (c + 1)) 0) (chainState (c3cfg K M) c).heap.length 0 ((c + 1 : Nat) : ℚ)
      [(((c + 1 : Nat) : ℚ), c + 1)] (c + 1) (natKey (c + 1)) hbf hf0 hen hmem hbid hnew hcd hdepth
    have hCP : (completionPhase (allocState (chainState (c3cfg K M) c) (chainStep (c + 1)) 0) (chainStep (c + 1))) = (allocState (chainState (c3cfg K M) c) (chainStep (c + 1)) 0) := completionPhase_noop_chain _ (c + 1)
    have hbv : (handleBranching (c3cfg K M) (completionPhase (allocState (chainState (c3cfg K M) c) (chainStep (c + 1)) 0) (chainStep (c + 1))) (chainState (c3cfg K M) c).heap.length 0).2 = { success := true, error := none } := by
      rw [hCP, hbig]
    have hactZ : (handleBranching (c3cfg K M) (completionPhase (allocState (chainState (c3cfg K M) c) (chainStep (c + 1)) 0) (chainStep (c + 1))) (chainState (c3cfg K M) c).heap.length 0).1.activeHist < (handleBranching (c3cfg K M) (completionPhase (allocState (chainState (c3cfg K M) c) (chainStep (c + 1)) 0) (chainStep (c + 1))) (chainState (c3cfg K M) c).heap.length 0).1.histHeap.length := by
      rw [handleBranching_activeHist, handleBranching_histLen, hCP]
      show (chainState (c3cfg K M) c).activeHist < (chainState (c3cfg K M) c).histHeap.length
      rw [ihact, ihlen]
      omega
    have hcapZ : (getHist (handleBranching (c3cfg K M) (completionPhase (allocState (chainState (c3cfg K M) c) (chainStep (c + 1)) 0) (chainStep (c + 1))) (chainState (c3cfg K M) c).heap.length 0).1).steps.length + 1 ≤ (c3cfg K M).system.maxHistorySize := by
      rw [handleBranching_getHist_steps, hCP, allocState_getHist, ihsteps]
      show c + 1 + 1 ≤ M
      omega
    have hmain : processStep (c3cfg K M) (chainState (c3cfg K M) c) (chainStep (c + 1)) 0 =
        successTail (c3cfg K M) (handleBranching (c3cfg K M) (completionPhase (allocState (chainState (c3cfg K M) c) (chainStep (c + 1)) 0) (chainStep (c + 1))) (chainState (c3cfg K M) c).heap.length 0).1 (chainStep (c + 1)) (chainState (c3cfg K M) c).heap.length 0 :=
      processStep_branchDone _ _ _ _ hfv hcv hsm hsid hdeps hrevN hbv
    have hfacts := successTail_facts (c3cfg K M) _ (chainStep (c + 1)) (chainState (c3cfg K M) c).heap.length 0 hactZ hcapZ
    have hstate : chainState (c3cfg K M) (c + 1) = preTrimState (handleBranching (c3cfg K M) (completionPhase (allocState (chainState (c3cfg K M) c) (chainStep (c + 1)) 0) (chainStep (c + 1))) (chainState (c3cfg K M) c).heap.length 0).1 (chainStep (c + 1)) (chainState (c3cfg K M) c).heap.length 0 := by
      show (processStep (c3cfg K M) (chainState (c3cfg K M) c) (chainStep (c + 1)) 0).1 = _
      rw [hmain]
      exact successTail_state_eq _ _ _ _ _ hactZ hcapZ
    have hBRheap : (handleBranching (c3cfg K M) (completionPhase (allocState (chainState (c3cfg K M) c) (chainStep (c + 1)) 0) (chainStep (c + 1))) (chainState (c3cfg K M) c).heap.length 0).1.heap =
        heapSet (allocState (chainState (c3cfg K M) c) (chainStep (c + 1)) 0).heap (chainState (c3cfg K M) c).heap.length (fun s => { s with branch_id := some (natKey (c + 1)) }) := by
      rw [hCP, hbig]
    have hBRbranches : (handleBranching (c3cfg K M) (completionPhase (allocState (chainState (c3cfg K M) c) (chainStep (c + 1)) 0) (chainStep (c + 1))) (chainState (c3cfg K M) c).heap.length 0).1.branches =
        mset (allocState (chainState (c3cfg K M) c) (chainStep (c + 1)) 0).branches (natKey (c + 1)) { id := natKey (c + 1), name := orElseStr (heapGet (allocState (chainState (c3cfg K M) c) (chainStep (c + 1)) 0).heap (chainState (c3cfg K M) c).heap.length).branch_name ("Alternative " ++ toString ((allocState (chainState (c3cfg K M) c) (chainStep (c + 1)) 0).branches.length + 1)), from_step := ((c + 1 : Nat) : ℚ), steps := [(chainState (c3cfg K M) c).heap.length], status := "active", created_at := 0, depth := c + 1 } := by
      rw [hCP, hbig]
    have hBRnums : (handleBranching (c3cfg K M) (completionPhase (allocState (chainState (c3cfg K M) c) (chainStep (c + 1)) 0) (chainStep (c + 1))) (chainState (c3cfg K M) c).heap.length 0).1.stepNumbers = (chainState (c3cfg K M) c).stepNumbers := by
      rw [hCP, hbig]
      rfl
    have hBRcache : (handleBranching (c3cfg K M) (completionPhase (allocState (chainState (c3cfg K M) c) (chainStep (c + 1)) 0) (chainStep (c + 1))) (chainState (c3cfg K M) c).heap.length 0).1.branchDepthCache = [] := by
      rw [hCP, hbig]
    have hheap2 : (chainState (c3cfg K M) (c + 1)).heap = chainHeap (c + 1) := by
      rw [hstate, preTrim_heap, hBRheap, allocState_heap, ihheap, heapSet_append_self,
        heapSet_append_self]
      rfl
    have hbr2 : (chainState (c3cfg K M) (c + 1)).branches = chainBranches (c + 1) := by
      rw [hstate, preTrim_branches_eq, hBRbranches, allocState_heap, hg, hbrA,
        chainBranches_length, ihheap, chainHeap_length]
      rw [mset_of_absent _ _ _ (chainBranches_mget_gt c (c + 1) (by omega))]
      rfl
    have hnums2 : (chainState (c3cfg K M) (c + 1)).stepNumbers = chainNums (c + 1) := by
      rw [hstate, preTrim_stepNumbers_eq, hBRnums, ihnums]
      exact sInsert_chainNums c
    have hcache2 : (chainState (c3cfg K M) (c + 1)).branchDepthCache = [] := by
      rw [hstate, preTrim_branchDepthCache, hBRcache]
    have hact2 : (chainState (c3cfg K M) (c + 1)).activeHist = 0 := by
      rw [hstate, preTrim_activeHist_eq, handleBranching_activeHist, hCP]
      exact ihact
    have hlen2 : (chainState (c3cfg K M) (c + 1)).histHeap.length = 1 := by
      rw [hstate, (preTrim_frame _ _ _ _).2.2.2.2.1, handleBranching_histLen, hCP]
      exact ihlen
    have hsteps2 : (getHist (chainState (c3cfg K M) (c + 1))).steps.length = (c + 1) + 1 := by
      rw [hstate, preTrim_getHist _ _ _ _ hactZ]
      dsimp only
      rw [List.length_append, handleBranching_getHist_steps, hCP, allocState_getHist, ihsteps]
      simp
    have hok : (processStep (c3cfg K M) (chainState (c3cfg K M) c) (chainStep (c + 1)) 0).2.isOk = true := by
      rw [hmain]
      exact hfacts.1
    exact ⟨hheap2, hbr2, hnums2, hcache2, hact2, hlen2, hsteps2, fun _ => hok⟩

end Crash

namespace Crash

/-- The (K+1)-th nested branching call is rejected: the depth limit fires,
the call fails fatally naming both depths, and the state keeps the branch
registry of the first K calls (only the depth cache moved). -/
theorem chain_fail (K M : Nat) (hK : 1 ≤ K) (hM : K + 2 ≤ M) :
    processStep (c3cfg K M) (chainState (c3cfg K M) K) (chainStep (K + 1)) 0 =
      ({ allocState (chainState (c3cfg K M) K) (chainStep (K + 1)) 0 with branchDepthCache := [(((K + 1 : Nat) : ℚ), K + 1)] },
       .err ("Branch depth " ++ toString (K + 1) ++ " exceeds maximum " ++ toString K
         ++ ". Max allowed: " ++ toString K) (hintFor (c3cfg K M))) ∧
    (processStep (c3cfg K M) (chainState (c3cfg K M) K) (chainStep (K + 1)) 0).1.branches = chainBranches K := by
  obtain ⟨ihheap, ihbr, ihnums, ihcache, ihact, ihlen, ihsteps, _⟩ :=
    chain_inv K M hK hM K (le_refl K)
  have hfv := chainStep_fv (K + 1)
  have hcv := chainStep_cv (K + 1)
  have hsm : (c3cfg K M).validation.strictMode = false := rfl
  have hsid : (chainStep (K + 1)).session_id = none := rfl
  have hdeps : (chainStep (K + 1)).dependencies = none := rfl
  have hrevN : truthyNum (chainStep (K + 1)).revises_step = false := rfl
  have hg : heapGet ((chainState (c3cfg K M) K).heap ++ [{ chainStep (K + 1) with timestamp := some 0 }]) (chainState (c3cfg K M) K).heap.length =
      { chainStep (K + 1) with timestamp := some 0 } := heapGet_append_self _ _
  have hbf : (heapGet (allocState (chainState (c3cfg K M) K) (chainStep (K + 1)) 0).heap (chainState (c3cfg K M) K).heap.length).branch_from = some ((K + 1 : Nat) : ℚ) := by
    rw [allocState_heap, hg]
    rfl
  have hf0 : ((K + 1 : Nat) : ℚ) ≠ 0 := Nat.cast_ne_zero.mpr (by omega)
  have hen : (c3cfg K M).features.enableBranching = true := rfl
  have hmem : ((K + 1 : Nat) : ℚ) ∈ (allocState (chainState (c3cfg K M) K) (chainStep (K + 1)) 0).stepNumbers := by
    show ((K + 1 : Nat) : ℚ) ∈ (chainState (c3cfg K M) K).stepNumbers
    rw [ihnums]
    exact chainNums_mem_succ K
  have hbid : orElseStr (heapGet (allocState (chainState (c3cfg K M) K) (chainStep (K + 1)) 0).heap (chainState (c3cfg K M) K).heap.length).branch_id ("branch-" ++ toString 0) =
      natKey (K + 1) := by
    rw [allocState_heap, hg]
    show orElseStr (some (natKey (K + 1))) _ = natKey (K + 1)
    simp [orElseStr, natKey_ne_empty K]
  have hnew : mget (allocState (chainState (c3cfg K M) K) (chainStep (K + 1)) 0).branches (natKey (K + 1)) = none := by
    show mget (chainState (c3cfg K M) K).branches (natKey (K + 1)) = none
    rw [ihbr]
    exact chainBranches_mget_gt K (K + 1) (by omega)
  have hcacheA : (allocState (chainState (c3cfg K M) K) (chainStep (K + 1)) 0).branchDepthCache = [] := ihcache
  have hbrA : (allocState (chainState (c3cfg K M) K) (chainStep (K + 1)) 0).branches = chainBranches K := ihbr
  have hH : ∀ j, 1 ≤ j → j ≤ K →
      (heapGet (allocState (chainState (c3cfg K M) K) (chainStep (K + 1)) 0).heap j).step_number.asNum = (j : ℚ) + 1 := by
    intro j h1 h2
    rw [allocState_heap, ihheap, heapGet_append _ _ _ (by rw [chainHeap_length]; omega)]
    exact chainHeap_get K j h2
  have hcache0 : mget (allocState (chainState (c3cfg K M) K) (chainStep (K + 1)) 0).branchDepthCache ((K + 1 : Nat) : ℚ) = none := by
    rw [hcacheA]
    rfl
  have hcd : calculateBranchDepth (allocState (chainState (c3cfg K M) K) (chainStep (K + 1)) 0) ((K + 1 : Nat) : ℚ) =
      ({ allocState (chainState (c3cfg K M) K) (chainStep (K + 1)) 0 with branchDepthCache := [(((K + 1 : Nat) : ℚ), K + 1)] }, K + 1) := by
    unfold calculateBranchDepth
    rw [hcache0]
    dsimp only
    rw [hbrA, chainFind_found K _ hH hK]
    dsimp only
    rw [hcacheA]
    rfl
  have hdepth : (c3cfg K M).system.maxBranchDepth < K + 1 := by
    show K < K + 1
    omega
  have herr := handleBranching_depthErr (c3cfg K M) (allocState (chainState (c3cfg K M) K) (chainStep (K + 1)) 0) (chainState (c3cfg K M) K).heap.length 0 ((K + 1 : Nat) : ℚ)
    [(((K + 1 : Nat) : ℚ), K + 1)] (K + 1) (natKey (K + 1)) hbf hf0 hen hmem hbid hnew hcd hdepth
  have hCP : (completionPhase (allocState (chainState (c3cfg K M) K) (chainStep (K + 1)) 0) (chainStep (K + 1))) = (allocState (chainState (c3cfg K M) K) (chainStep (K + 1)) 0) := completionPhase_noop_chain _ (K + 1)
  have hbv : (handleBranching (c3cfg K M) (completionPhase (allocState (chainState (c3cfg K M) K) (chainStep (K + 1)) 0) (chainStep (K + 1))) (chainState (c3cfg K M) K).heap.length 0).2 = { success := false, error := some ("Branch depth " ++ toString (K + 1) ++ " exceeds maximum " ++ toString (c3cfg K M).system.maxBranchDepth ++ ". Max allowed: " ++ toString (c3cfg K M).system.maxBranchDepth) } := by
    rw [hCP, herr]
  have hfail := processStep_branchErr (c3cfg K M) (chainState (c3cfg K M) K) (chainStep (K + 1)) 0 ("Branch depth " ++ toString (K + 1) ++ " exceeds maximum " ++ toString (c3cfg K M).system.maxBranchDepth ++ ". Max allowed: " ++ toString (c3cfg K M).system.maxBranchDepth)
    hfv hcv hsm hsid hdeps hrevN hbv
  have heq : processStep (c3cfg K M) (chainState (c3cfg K M) K) (chainStep (K + 1)) 0 =
      ({ allocState (chainState (c3cfg K M) K) (chainStep (K + 1)) 0 with branchDepthCache := [(((K + 1 : Nat) : ℚ), K + 1)] },
       .err ("Branch depth " ++ toString (K + 1) ++ " exceeds maximum " ++ toString K
         ++ ". Max allowed: " ++ toString K) (hintFor (c3cfg K M))) := by
    rw [hfail, hCP, herr]
    rfl
  refine ⟨heq, ?_⟩
  rw [heq]
  exact hbrA

end Crash

namespace Crash

/-- C3: in the nested branch-from-branch chain under `maxBranchDepth = K`
(history cap `M ≥ K + 2` so trimming never interferes), the first `K`
branch creations succeed with computed depths `1 .. K` (`chainBranch c`
has depth `c`), the `(K+1)`-th nested attempt returns a fatal failure
naming the computed depth `K + 1` and the maximum `K`, no `(K+1)`-th
branch is registered on rejection, and every registered branch's depth is
at most `K`. -/
theorem C3_branch_depth_chain (K M : Nat) (hK : 1 ≤ K) (hM : K + 2 ≤ M) :
    (∀ c, 1 ≤ c → c ≤ K →
      (processStep (c3cfg K M) (chainState (c3cfg K M) (c - 1)) (chainStep c) 0).2.isOk
        = true ∧
      mget (chainState (c3cfg K M) c).branches (natKey c) = some (chainBranch c) ∧
      (chainBranch c).depth = c) ∧
    processStep (c3cfg K M) (chainState (c3cfg K M) K) (chainStep (K + 1)) 0 =
      ({ allocState (chainState (c3cfg K M) K) (chainStep (K + 1)) 0 with
          branchDepthCache := [(((K + 1 : Nat) : ℚ), K + 1)] },
       .err ("Branch depth " ++ toString (K + 1) ++ " exceeds maximum " ++ toString K
         ++ ". Max allowed: " ++ toString K) (hintFor (c3cfg K M))) ∧
    mget (processStep (c3cfg K M) (chainState (c3cfg K M) K) (chainStep (K + 1)) 0).1.branches
      (natKey (K + 1)) = none ∧
    (∀ p ∈ (processStep (c3cfg K M) (chainState (c3cfg K M) K)
        (chainStep (K + 1)) 0).1.branches, p.2.depth ≤ K) := by
  obtain ⟨heq, hbr⟩ := chain_fail K M hK hM
  refine ⟨?_, heq, ?_, ?_⟩
  · intro c h1 hc
    obtain ⟨_, hbrc, _, _, _, _, _, hok⟩ := chain_inv K M hK hM c hc
    exact ⟨hok h1, by rw [hbrc]; exact chainBranches_mget_le c c h1 (le_refl c), rfl⟩
  · rw [hbr]
    exact chainBranches_mget_gt K (K + 1) (by omega)
  · rw [hbr]
    exact chainBranches_depth_le K

/-- Witness discharging C3's hypotheses at `K = 1`, `M = 3`: the first
branch creation succeeds and registers depth 1, and the second nested
attempt registers nothing. -/
theorem C3_witness :
    (processStep (c3cfg 1 3) (chainState (c3cfg 1 3) 0) (chainStep 1) 0).2.isOk = true ∧
    mget (chainState (c3cfg 1 3) 1).branches (natKey 1) = some (chainBranch 1) ∧
    mget (processStep (c3cfg 1 3) (chainState (c3cfg 1 3) 1)
      (chainStep 2) 0).1.branches (natKey 2) = none :=
  ⟨((C3_branch_depth_chain 1 3 (by decide) (by decide)).1 1 (by decide) (by decide)).1,
   ((C3_branch_depth_chain 1 3 (by decide) (by decide)).1 1 (by decide) (by decide)).2.1,
   (C3_branch_depth_chain 1 3 (by decide) (by decide)).2.2.1⟩

end Crash
